import Mathlib

/-!
# OnApp SDK: filter matching and transaction chains

A shallow embedding of the reflection-based filter matcher
(`Transaction.equal`, `GetByFilter`) and of the transaction chain builder
(`ListByGroup`, `lastTransaction`) of `transaction.go`.

Conventions of the embedding:

* a Go `int` is an `Int` (no arithmetic on it can overflow in the code in scope);
* a value held in an `interface{}` is a `Value`, tagged with its dynamic type;
* a filter (`interface{}` holding a struct) is the list of its fields in
  declaration order;
* a run-time panic is the `error` side of `Except Panic`;
* a Go slice is `Option (List α)`, `none` being the nil slice;
* the remote `Transactions.List` call is a field of `Client`, and every
  function that can issue it returns the requests it issued (`calls`).
-/

namespace OnApp

/-! ## Dynamic values and filters -/

/-- Dynamic value of a struct field as `reflect` sees it. The four cases are
the four field types of `Transaction`: `int`, `string`, `bool` and
`map[string]interface{}`. The entries of a map are never inspected by the code
in scope, so they are kept as text. A filter field of any other Go type would
differ in dynamic type from every field of `Transaction`, as a string differs
from an int here. -/
inductive Value where
  | int (i : Int)
  | str (s : String)
  | bool (b : Bool)
  | map (entries : List (String × String))
  deriving DecidableEq, Repr

/-- Run-time panics of the code in scope. -/
inductive Panic where
  /-- Raised by `Interface()` on the zero `reflect.Value` (field not found). -/
  | invalidValue
  /-- Raised when two interface values of an uncomparable type are compared. -/
  | uncomparable
  /-- Raised by a type assertion (`.(int)`, `.(string)`) on a value of another
  type. -/
  | typeAssertion
  /-- Raised by an index out of range. -/
  | indexOutOfRange
  deriving DecidableEq, Repr

/-- Struct value passed as `filter interface{}`: its fields, in declaration
order, each with its name and its value. -/
abbrev Filter := List (String × Value)

/-- Go `reflect.Value.FieldByName` on a struct value: `none` is the zero
(invalid) `reflect.Value`. -/
def FieldByName (fields : List (String × Value)) (name : String) : Option Value :=
  match fields with
  | [] => none
  | (n, v) :: rest => if n = name then some v else FieldByName rest name

/-- Go `reflect.Value.String`: the string itself for a string, and the text
`<T Value>` for a value of any other type `T` (it does not panic). -/
def Value.String : Value → String
  | .str s => s
  | .int _ => "<int Value>"
  | .bool _ => "<bool Value>"
  | .map _ => "<map[string]interface \x7b\x7d Value>"

/-- Go `a != b` on two interface values: values of different dynamic types
are unequal, values of the same comparable type are compared, and two values
of the same uncomparable type (a map) make the comparison panic. -/
def ifaceNe : Value → Value → Except Panic Bool
  | .int a, .int b => .ok (a != b)
  | .str a, .str b => .ok (a != b)
  | .bool a, .bool b => .ok (a != b)
  | .map _, .map _ => .error .uncomparable
  | _, _ => .ok true

/-! ## Transactions -/

/-- The `Transaction` struct of `transaction.go`, field for field. -/
structure Transaction where
  Action : String
  Actor : String
  AllowedCancel : Bool
  AssociatedObjectID : Int
  AssociatedObjectType : String
  ChainID : Int
  CreatedAt : String
  DependentTransactionID : Int
  ID : Int
  Identifier : String
  LockVersion : Int
  ParentID : Int
  ParentType : String
  Pid : Int
  Priority : Int
  Scheduled : Bool
  StartAfter : String
  StartedAt : String
  Status : String
  UpdatedAt : String
  UserID : Int
  Params : List (String × String)
  deriving DecidableEq, Repr

/-- The fields of a transaction as `reflect` enumerates them: declaration
order, Go field name, dynamic value. -/
def Transaction.fields (trx : Transaction) : List (String × Value) :=
  [ ("Action", .str trx.Action),
    ("Actor", .str trx.Actor),
    ("AllowedCancel", .bool trx.AllowedCancel),
    ("AssociatedObjectID", .int trx.AssociatedObjectID),
    ("AssociatedObjectType", .str trx.AssociatedObjectType),
    ("ChainID", .int trx.ChainID),
    ("CreatedAt", .str trx.CreatedAt),
    ("DependentTransactionID", .int trx.DependentTransactionID),
    ("ID", .int trx.ID),
    ("Identifier", .str trx.Identifier),
    ("LockVersion", .int trx.LockVersion),
    ("ParentID", .int trx.ParentID),
    ("ParentType", .str trx.ParentType),
    ("Pid", .int trx.Pid),
    ("Priority", .int trx.Priority),
    ("Scheduled", .bool trx.Scheduled),
    ("StartAfter", .str trx.StartAfter),
    ("StartedAt", .str trx.StartedAt),
    ("Status", .str trx.Status),
    ("UpdatedAt", .str trx.UpdatedAt),
    ("UserID", .int trx.UserID),
    ("Params", .map trx.Params) ]

/-- The names of the fields of `Transaction`. -/
def transactionFieldNames : List String :=
  [ "Action", "Actor", "AllowedCancel", "AssociatedObjectID", "AssociatedObjectType",
    "ChainID", "CreatedAt", "DependentTransactionID", "ID", "Identifier", "LockVersion",
    "ParentID", "ParentType", "Pid", "Priority", "Scheduled", "StartAfter", "StartedAt",
    "Status", "UpdatedAt", "UserID", "Params" ]

/-- The loop of `Transaction.equal` (`transaction.go`, lines 255-275): for each
field of the filter in order, look the same-named field up on the transaction
and compare the two as interface values; the first unequal pair returns
`false`, the end of the fields returns `true`. `value.Interface() !=
filterValue.Interface()` panics when the transaction has no such field and
when both sides are maps. -/
def Transaction.equal (trx : Transaction) (filter : Filter) : Except Panic Bool :=
  match filter with
  | [] => .ok true
  | (name, value) :: rest =>
    match FieldByName trx.fields name with
    | none => .error .invalidValue
    | some filterValue =>
      match ifaceNe value filterValue with
      | .error p => .error p
      | .ok true => .ok false
      | .ok false => Transaction.equal trx rest

/-- The exported wrapper `EqualFilter` (`transaction.go`, lines 250-253). -/
def Transaction.EqualFilter (trx : Transaction) (filter : Filter) : Except Panic Bool :=
  trx.equal filter

/-! ## The client, errors and return values -/

/-- The `*Response` that the transport hands back with a reply. Its type is
declared outside the files in scope and the code in scope only passes it on. -/
structure Response where
  id : Nat
  deriving DecidableEq, Repr

/-- The `*ListOptions` argument. Its type is declared outside the files in
scope; the only field the code in scope sets is `PerPage`. -/
structure ListOptions where
  PerPage : Int
  deriving DecidableEq, Repr

/-- The errors the code in scope returns. -/
inductive Err where
  /-- Built by `godo.NewArgError(arg, reason)`. -/
  | argError (arg : String) (reason : String)
  /-- Any error produced by the transport or the decoding of a reply. -/
  | upstream (msg : String)
  /-- Built by `fmt.Errorf(context + "%s", err)`. -/
  | wrapped (context : String) (err : Err)
  /-- Built by `fmt.Errorf("Transaction not found or wrong filter %+v", filter)`. -/
  | notFound (filter : Filter)
  deriving DecidableEq, Repr

/-- What `client.Transactions.List(ctx, opt)` returns: `(nil, resp, err)` with
a non-nil error, or `(lst, resp, nil)`. -/
inductive ListReply where
  | failed (resp : Option Response) (err : Err)
  | fetched (lst : List Transaction) (resp : Option Response)
  deriving DecidableEq, Repr

/-- The client, as far as the code in scope uses it: the reply of
`Transactions.List` to each request. -/
structure Client where
  List : Option ListOptions → ListReply

/-- Return values `(val, resp, err)` of a service method, together with the
requests it issued to `Transactions.List`, in order. -/
structure Returned (α : Type) where
  val : α
  resp : Option Response
  err : Option Err
  calls : List (Option ListOptions)
  deriving DecidableEq, Repr

/-- Go slice of transactions: `none` is the nil slice, `some l` an allocated
slice with the elements `l`. -/
abbrev Slice := Option (List Transaction)

/-- The elements of a slice (none for the nil slice). -/
def Slice.toList : Slice → List Transaction
  | none => []
  | some l => l

/-- `append(groupList, cur)` when `revers == false`, and
`append([]Transaction(cur), groupList...)` (prepend) otherwise
(`transaction.go`, lines 192-196, 209-213, 221-225). Both allocate. -/
def push (revers : Bool) (groupList : Slice) (cur : Transaction) : Slice :=
  if revers = false then some (Slice.toList groupList ++ [cur])
  else some (cur :: Slice.toList groupList)

/-! ## ListByGroup -/

/-- The blocks `v := val.FieldByName(field); if v.IsValid() ...`
(`transaction.go`, lines 134-152): an absent field leaves the variable at 0,
a field that is not an int makes `.(int)` panic, an int below 1 is an
argument error. -/
def idField (filter : Filter) (field : String) (arg : String) : Except Panic (Except Err Int) :=
  match FieldByName filter field with
  | none => .ok (.ok 0)
  | some (.int n) =>
    if n < 1 then .ok (.error (.argError arg "cannot be less than 1")) else .ok (.ok n)
  | some _ => .error .typeAssertion

/-- The blocks `v := val.FieldByName(field); if v.IsValid() ... v.String()`
(`transaction.go`, lines 154-162): an absent field leaves the variable empty. -/
def typeField (filter : Filter) (field : String) : String :=
  match FieldByName filter field with
  | none => ""
  | some v => v.String

/-- The two adjacency tests of one iteration (`transaction.go`, lines 204-228),
once `next` is known to be non-nil. -/
def adjacent (associatedObjectType parentType : String) (revers : Bool)
    (cur next : Transaction) (groupList : Slice) : Slice :=
  let g1 :=
    if associatedObjectType ≠ "" then
      if cur.AssociatedObjectID = next.AssociatedObjectID ∧
          cur.AssociatedObjectType = next.AssociatedObjectType ∧
          cur.ChainID = next.ChainID then push revers groupList cur else groupList
    else groupList
  if parentType ≠ "" then
    if cur.ParentID = next.ParentID ∧
        cur.ParentType = next.ParentType ∧
        cur.ChainID = next.ChainID then push revers g1 cur else g1
  else g1

/-- The loop `for i, cur := range lst` of `ListByGroup` (`transaction.go`,
lines 174-229), run on the part `cur :: rest` of the list that is still to be
visited, so that `i+1 < len` holds exactly when `rest` is not empty and
`lst[i+1]` is then the head of `rest`. The state of the loop is the pointer
`next`, which is declared before the loop and keeps its value when
`i+1 < len` fails or an iteration ends in `continue`, and `groupList`. -/
def scan (associatedObjectID : Int) (associatedObjectType : String)
    (parentID : Int) (parentType : String) (revers : Bool) :
    List Transaction → Option Transaction → Slice → Slice
  | [], _, groupList => groupList
  | cur :: rest, next, groupList =>
    if associatedObjectType ≠ "" ∧
        (cur.AssociatedObjectID ≠ associatedObjectID ∨
          cur.AssociatedObjectType ≠ associatedObjectType) then
      scan associatedObjectID associatedObjectType parentID parentType revers rest next groupList
    else if parentType ≠ "" ∧
        (cur.ParentID ≠ parentID ∨ cur.ParentType ≠ parentType) then
      scan associatedObjectID associatedObjectType parentID parentType revers rest next groupList
    else if cur.DependentTransactionID = 0 then
      push revers groupList cur
    else
      let next1 := match rest with
        | [] => next
        | n :: _ => some n
      let groupList1 := match next1 with
        | none => groupList
        | some n => adjacent associatedObjectType parentType revers cur n groupList
      scan associatedObjectID associatedObjectType parentID parentType revers rest next1 groupList1

/-- `TransactionsServiceOp.ListByGroup` (`transaction.go`, lines 128-232). -/
def ListByGroup (c : Client) (filter : Filter) (revers : Bool) (opt : Option ListOptions) :
    Except Panic (Returned Slice) :=
  match idField filter "AssociatedObjectID" "associatedObjectID" with
  | .error p => .error p
  | .ok (.error e) => .ok ⟨none, none, some e, []⟩
  | .ok (.ok associatedObjectID) =>
    match idField filter "ParentID" "parentID" with
    | .error p => .error p
    | .ok (.error e) => .ok ⟨none, none, some e, []⟩
    | .ok (.ok parentID) =>
      let associatedObjectType := typeField filter "AssociatedObjectType"
      let parentType := typeField filter "ParentType"
      match c.List opt with
      | .failed resp err => .ok ⟨none, resp, some (.wrapped "ListByGroup.lst: " err), [opt]⟩
      | .fetched lst resp =>
        .ok ⟨scan associatedObjectID associatedObjectType parentID parentType revers lst none none,
          resp, none, [opt]⟩

/-! ## GetByFilter and lastTransaction -/

/-- The loop `for _, v := range lst` of `GetByFilter` (`transaction.go`, lines
241-245): the first record for which `equal` returns true. -/
def firstEqual (filter : Filter) : List Transaction → Except Panic (Option Transaction)
  | [] => .ok none
  | v :: rest =>
    match v.equal filter with
    | .error p => .error p
    | .ok true => .ok (some v)
    | .ok false => firstEqual filter rest

/-- `TransactionsServiceOp.GetByFilter` (`transaction.go`, lines 235-248). -/
def GetByFilter (c : Client) (filter : Filter) (opts : Option ListOptions) :
    Except Panic (Returned (Option Transaction)) :=
  match c.List opts with
  | .failed resp err => .ok ⟨none, resp, some (.wrapped "GetByFilter.lst: " err), [opts]⟩
  | .fetched lst resp =>
    match firstEqual filter lst with
    | .error p => .error p
    | .ok (some v) => .ok ⟨some v, resp, none, [opts]⟩
    | .ok none => .ok ⟨none, none, some (.notFound filter), [opts]⟩

/-- The function `lastTransaction` (`transaction.go`, lines 277-288). The
constant `searchTransactions` is declared outside the files in scope and is a
parameter here. `lst[0]` panics on an allocated slice without elements. -/
def lastTransaction (searchTransactions : Int) (client : Client) (filter : Filter) :
    Except Panic (Returned (Option Transaction)) :=
  let opt : Option ListOptions := some ⟨searchTransactions⟩
  match ListByGroup client filter false opt with
  | .error p => .error p
  | .ok r =>
    if r.val = none ∨ r.err ≠ none then .ok ⟨none, none, r.err, r.calls⟩
    else
      match (Slice.toList r.val)[0]? with
      | none => .error .indexOutOfRange
      | some t => .ok ⟨some t, r.resp, r.err, r.calls⟩

/-! ## Vocabulary of the statements -/

/-- The filter carries the id field `field` with an int value below 1. -/
def idBelowOne (filter : Filter) (field : String) : Bool :=
  match FieldByName filter field with
  | some (.int n) => decide (n < 1)
  | _ => false

/-- The id field `field` of the filter is absent or holds an int. -/
def idIntOrAbsent (filter : Filter) (field : String) : Bool :=
  match FieldByName filter field with
  | none => true
  | some (.int _) => true
  | some _ => false

/-- The id field `field` of the filter is absent or holds an int that is at
least 1. -/
def idValid (filter : Filter) (field : String) : Bool :=
  match FieldByName filter field with
  | none => true
  | some (.int n) => decide (1 ≤ n)
  | some _ => false

/-- The filter carries the id field `field` with an int value of at least 1. -/
def idAtLeastOne (filter : Filter) (field : String) : Bool :=
  match FieldByName filter field with
  | some (.int n) => decide (1 ≤ n)
  | _ => false

/-- Reversal of the elements of a slice; the nil slice stays nil. -/
def Slice.reverse : Slice → Slice
  | none => none
  | some l => some l.reverse

/-! ## Sample data -/

/-- The transaction whose fields all hold their zero value. -/
def zeroTransaction : Transaction :=
  { Action := "", Actor := "", AllowedCancel := false, AssociatedObjectID := 0,
    AssociatedObjectType := "", ChainID := 0, CreatedAt := "", DependentTransactionID := 0,
    ID := 0, Identifier := "", LockVersion := 0, ParentID := 0, ParentType := "", Pid := 0,
    Priority := 0, Scheduled := false, StartAfter := "", StartedAt := "", Status := "",
    UpdatedAt := "", UserID := 0, Params := [] }

/-- A record of the chain of virtual machine 5: `base` with the id, the
associated object `(5, "VM")`, the chain id 9 and the dependent transaction id
set. -/
def vmRecord (base : Transaction) (id dep : Int) : Transaction :=
  { base with ID := id, AssociatedObjectID := 5, AssociatedObjectType := "VM", ChainID := 9,
              DependentTransactionID := dep }

/-- The filter that groups by the associated object `(5, "VM")`. -/
def vmFilter : Filter :=
  [("AssociatedObjectID", .int 5), ("AssociatedObjectType", .str "VM")]

/-- A client whose `Transactions.List` answers every request with `lst`. -/
def clientOf (lst : List Transaction) : Client :=
  { List := fun _ => .fetched lst none }

/-- A client whose `Transactions.List` fails on every request. -/
def failingClient : Client :=
  { List := fun _ => .failed none (.upstream "connection refused") }

/-- A filter whose only field is a `Params` map. -/
def paramsFilter : Filter := [("Params", .map [])]

/-- A filter with a field that `Transaction` does not have. -/
def strayFilter : Filter := [("Flavour", .int 1)]

/-- A filter that selects by id and status. -/
def idStatusFilter : Filter := [("ID", .int 0), ("Status", .str "")]

/-- A filter whose `AssociatedObjectID` is a string and whose `ParentID` is 0. -/
def textIDFilter : Filter := [("AssociatedObjectID", .str "5"), ("ParentID", .int 0)]

/-- A filter whose `AssociatedObjectID` is a boolean and whose `ParentID` is -1. -/
def flagIDFilter : Filter := [("AssociatedObjectID", .bool true), ("ParentID", .int (-1))]

/-- A filter with an associated-object id and an empty associated-object type. -/
def untypedFilter : Filter :=
  [("AssociatedObjectID", .int 5), ("AssociatedObjectType", .str "")]

/-- A filter with a parent id and a parent type. -/
def parentFilter : Filter := [("ParentID", .int 7), ("ParentType", .str "User")]

/-! ## Virtual machine actions -/

/-- The `ActionRequest` map (`map[string]interface{}`) of
`virtual_machine_actions.go`: its entries, key and value. -/
abbrev ActionRequest := List (String × Value)

/-- Go map index `(*request)[key]`: `none` is the nil interface that an absent
key reads as. -/
def ActionRequest.index (request : ActionRequest) (key : String) : Option Value :=
  match request with
  | [] => none
  | (k, v) :: rest => if k = key then some v else ActionRequest.index rest key

/-- The function `virtualMachineActionPath` (`virtual_machine_actions.go`,
lines 225-251). The constants `virtualMachineBasePath` and `apiFormat` are
declared outside the files in scope and are parameters here. The type
assertions `.(string)` and `.(int)` panic on a value of another type. -/
def virtualMachineActionPath (virtualMachineBasePath apiFormat : String) (id : Int)
    (request : ActionRequest) : Except Panic (Except Err String) :=
  match request.index "type" with
  | none => .ok (.error (.argError "type" "must be specified"))
  | some (.str rtype) =>
    let path : Except Panic String :=
      match request.index "path" with
      | none => .ok rtype
      | some (.str p) => .ok p
      | some _ => .error .typeAssertion
    match path with
    | .error p => .error p
    | .ok path =>
      if rtype = "unassign_ip_address" then
        match request.index "ip_address_id" with
        | none => .ok (.error (.argError "ip_address_id" "must be specified"))
        | some (.int ipAddressID) =>
          .ok (.ok (virtualMachineBasePath ++ "/" ++ toString id ++ "/" ++ path ++ "/" ++
            toString ipAddressID ++ apiFormat))
        | some _ => .error .typeAssertion
      else
        .ok (.ok (virtualMachineBasePath ++ "/" ++ toString id ++ "/" ++ path ++ apiFormat))
  | some _ => .error .typeAssertion

/-- The request that `UnAssignIPAddress` builds (`virtual_machine_actions.go`,
line 165); `http.MethodDelete` is the string `DELETE`. -/
def unAssignIPAddressRequest (ipID : Int) : ActionRequest :=
  [("method", .str "DELETE"), ("type", .str "unassign_ip_address"),
    ("action", .str "ip_addresses"), ("ip_address_id", .int ipID)]

/-! ## More vocabulary of the statements -/

/-- The value is the zero value of its type: 0, the empty string or false. -/
def Value.isZero : Value → Bool
  | .int i => decide (i = 0)
  | .str s => decide (s = "")
  | .bool b => !b
  | .map _ => false

/-- The filter built by copying every field of the transaction except the
map-valued `Params`. -/
def copyWithoutParams (trx : Transaction) : Filter :=
  trx.fields.filter (fun p => p.1 != "Params")

/-- The id that `ListByGroup` reads from the field `field` of a filter it
accepts: the int the field holds, and 0 when the field is absent. -/
def filterID (filter : Filter) (field : String) : Int :=
  match FieldByName filter field with
  | some (.int n) => n
  | _ => 0

/-- The grouping-key tests of one iteration of `ListByGroup` (`transaction.go`,
lines 175-189), for the keys that the filter carries: the record is not
skipped by `continue`. -/
def keyTest (filter : Filter) (cur : Transaction) : Bool :=
  decide ((typeField filter "AssociatedObjectType" = "" ∨
      (cur.AssociatedObjectID = filterID filter "AssociatedObjectID" ∧
        cur.AssociatedObjectType = typeField filter "AssociatedObjectType")) ∧
    (typeField filter "ParentType" = "" ∨
      (cur.ParentID = filterID filter "ParentID" ∧
        cur.ParentType = typeField filter "ParentType")))

/-- A record of the chain of virtual machine 5 that also has the parent
`(7, "User")`. -/
def bothRecord (id dep : Int) : Transaction :=
  { vmRecord zeroTransaction id dep with ParentID := 7, ParentType := "User" }

/-- The filter that groups by the associated object `(5, "VM")` and by the
parent `(7, "User")`. -/
def bothFilter : Filter :=
  [("AssociatedObjectID", .int 5), ("AssociatedObjectType", .str "VM"),
    ("ParentID", .int 7), ("ParentType", .str "User")]

/-- A filter with a stray field before a zero-valued id. -/
def strayThenIDFilter : Filter := [("Flavour", .int 1), ("ID", .int 0)]

/-! ## The status predicates -/

/-- The constant `TransactionRunning` (`transaction.go`, line 16). -/
def TransactionRunning : String := "running"

/-- The constant `TransactionComplete` (`transaction.go`, line 19). -/
def TransactionComplete : String := "complete"

/-- The constant `TransactionPending` (`transaction.go`, line 22). -/
def TransactionPending : String := "pending"

/-- The constant `TransactionCancelled` (`transaction.go`, line 25). -/
def TransactionCancelled : String := "cancelled"

/-- The constant `TransactionFailed` (`transaction.go`, line 28). -/
def TransactionFailed : String := "failed"

/-- The method `Running` (`transaction.go`, lines 295-297). -/
def Transaction.Running (trx : Transaction) : Bool :=
  trx.Status == TransactionRunning

/-- The method `Pending` (`transaction.go`, lines 300-302). -/
def Transaction.Pending (trx : Transaction) : Bool :=
  trx.Status == TransactionPending

/-- The method `Incomplete` (`transaction.go`, lines 305-307). -/
def Transaction.Incomplete (trx : Transaction) : Bool :=
  trx.Running || trx.Pending

/-- The method `Complete` (`transaction.go`, lines 310-312). -/
def Transaction.Complete (trx : Transaction) : Bool :=
  trx.Status == TransactionComplete

/-- The method `Failed` (`transaction.go`, lines 315-317). -/
def Transaction.Failed (trx : Transaction) : Bool :=
  trx.Status == TransactionFailed

/-- The method `Cancelled` (`transaction.go`, lines 320-322). -/
def Transaction.Cancelled (trx : Transaction) : Bool :=
  trx.Status == TransactionCancelled

/-- The method `Unlucky` (`transaction.go`, lines 325-327). -/
def Transaction.Unlucky (trx : Transaction) : Bool :=
  trx.Failed || trx.Cancelled

/-- The method `Finished` (`transaction.go`, lines 331-333). -/
def Transaction.Finished (trx : Transaction) : Bool :=
  trx.Complete || trx.Unlucky

/-! ## doAction -/

/-- The `*http.Request` that `client.NewRequest` builds; the code in scope only
hands it to `client.Do`. -/
structure HttpRequest where
  method : String
  path : String
  deriving DecidableEq, Repr

/-- The collaborators of `doAction` that are declared outside the files in
scope, with the arguments that `doAction` only passes on (`ctx`, `urlParams`,
`jsonParams`) fixed: `addOptions(path, urlParams)`,
`client.NewRequest(ctx, httpMethod, path, jsonParams)` and
`client.Do(ctx, req, nil)`, which returns `(resp, err)`. -/
structure Transport where
  addOptions : String → Except Err String
  NewRequest : String → String → Except Err HttpRequest
  Do : HttpRequest → Option Response × Option Err

/-- The filter that `doAction` builds after the request went through
(`virtual_machine_actions.go`, lines 212-220). -/
def doActionFilter (action : String) (id : Int) : Filter :=
  [("Action", .str action), ("AssociatedObjectID", .int id),
    ("AssociatedObjectType", .str "VirtualMachine")]

/-- The method `doAction` (`virtual_machine_actions.go`, lines 177-223). The
pointer `request` may be nil; the type assertions `.(string)` on the `method`
and `action` entries panic on a value that is not a string, the one on
`action` also on an absent entry. -/
def doAction (searchTransactions : Int) (virtualMachineBasePath apiFormat : String)
    (transport : Transport) (client : Client) (id : Int) (request : Option ActionRequest) :
    Except Panic (Returned (Option Transaction)) :=
  if id < 1 then .ok ⟨none, none, some (.argError "id" "cannot be less than 1"), []⟩
  else
    match request with
    | none => .ok ⟨none, none, some (.argError "request" "request can't be nil"), []⟩
    | some request =>
      match virtualMachineActionPath virtualMachineBasePath apiFormat id request with
      | .error p => .error p
      | .ok (.error err) => .ok ⟨none, none, some err, []⟩
      | .ok (.ok path) =>
        match transport.addOptions path with
        | .error err => .ok ⟨none, none, some err, []⟩
        | .ok path =>
          match request.index "method" with
          | none => .ok ⟨none, none, some (.argError "method" "must be specified"), []⟩
          | some (.str httpMethod) =>
            match transport.NewRequest httpMethod path with
            | .error err => .ok ⟨none, none, some err, []⟩
            | .ok req =>
              match transport.Do req with
              | (resp, some err) => .ok ⟨none, resp, some err, []⟩
              | (_, none) =>
                match request.index "action" with
                | some (.str action) =>
                  lastTransaction searchTransactions client (doActionFilter action id)
                | _ => .error .typeAssertion
          | some _ => .error .typeAssertion

/-! ## Vocabulary of the statements on the fields that ListByGroup reads -/

/-- The two filters agree on the presence and on the value of the fields
`AssociatedObjectID`, `AssociatedObjectType`, `ParentID` and `ParentType`. -/
def sameKeyFields (f1 f2 : Filter) : Bool :=
  decide (FieldByName f1 "AssociatedObjectID" = FieldByName f2 "AssociatedObjectID") &&
  decide (FieldByName f1 "AssociatedObjectType" = FieldByName f2 "AssociatedObjectType") &&
  decide (FieldByName f1 "ParentID" = FieldByName f2 "ParentID") &&
  decide (FieldByName f1 "ParentType" = FieldByName f2 "ParentType")

/-- A transport on which every request goes through. -/
def okTransport : Transport :=
  { addOptions := fun path => .ok path,
    NewRequest := fun method path => .ok ⟨method, path⟩,
    Do := fun _ => (none, none) }

/-- The request that `Shutdown` builds (`virtual_machine_actions.go`, line
45), with its `action` entry first. -/
def shutdownRequest : ActionRequest :=
  [("action", .str "stop_virtual_machine"), ("method", .str "POST"), ("type", .str "shutdown")]

/-- A record of the chain of virtual machine `id`, with the action, the id
and the dependent transaction id set. -/
def actionRecord (action : String) (vm id dep : Int) : Transaction :=
  { zeroTransaction with Action := action, ID := id, AssociatedObjectID := vm,
                         AssociatedObjectType := "VirtualMachine", ChainID := 9,
                         DependentTransactionID := dep }

/-! ## The filter matcher -/

/-- Comparing two interface values that are not both maps never panics and
tells whether they differ. -/
theorem ifaceNe_comparable (a b : Value) (h : ∀ m n, ¬ (a = .map m ∧ b = .map n)) :
    ifaceNe a b = .ok (decide (a ≠ b)) := by
  cases a <;> cases b <;> simp_all [ifaceNe, bne] <;> rfl

/-- Every field name of `Transaction` is found on a transaction, and the only
one whose value is a map is `Params`. -/
theorem FieldByName_fields_of_mem (trx : Transaction) (name : String)
    (h : name ∈ transactionFieldNames) :
    ∃ v, FieldByName trx.fields name = some v ∧ (∀ m, v = .map m → name = "Params") := by
  simp only [transactionFieldNames, List.mem_cons, List.mem_singleton, List.not_mem_nil,
    or_false] at h
  rcases h with h | h | h | h | h | h | h | h | h | h | h | h | h | h | h | h | h | h | h | h |
    h | h <;> subst h <;> simp [FieldByName, Transaction.fields]

/-- On a filter whose fields exist on `Transaction` and which has no `Params`
map, `equal` returns the truth value of "every filter field agrees". -/
theorem equal_eq_decide (trx : Transaction) (filter : Filter)
    (hname : ∀ p ∈ filter, p.1 ∈ transactionFieldNames)
    (hmap : ∀ m, ("Params", Value.map m) ∉ filter) :
    trx.equal filter
      = .ok (decide (∀ p ∈ filter, FieldByName trx.fields p.1 = some p.2)) := by
  induction filter with
  | nil => simp [Transaction.equal]
  | cons p rest ih =>
    obtain ⟨name, value⟩ := p
    obtain ⟨v, hv, hvm⟩ := FieldByName_fields_of_mem trx name (hname (name, value) (by simp))
    have hcmp : ifaceNe value v = .ok (decide (value ≠ v)) := by
      apply ifaceNe_comparable
      rintro m n ⟨rfl, rfl⟩
      have hn : name = "Params" := hvm n rfl
      subst hn
      exact hmap m (by simp)
    have ih1 := ih (fun q hq => hname q (List.mem_cons_of_mem _ hq))
      (fun m hm => hmap m (List.mem_cons_of_mem _ hm))
    unfold Transaction.equal
    rw [hv]
    simp only [hcmp]
    by_cases hvv : value = v
    · subst hvv
      simp [ih1, hv]
    · have hne : v ≠ value := fun h => hvv h.symm
      simp [hvv, hv, hne]

/-- Outside the filters that the matcher is for (the type of a filter field
must support equality: a number, a string or a boolean, not a map): on the
filter with the single field `Params`, which names a field of `Transaction`
and holds the same (empty) map as the zero transaction, `equal` and
`EqualFilter` return nothing, since comparing the two maps panics. -/
theorem equal_params_filter_panics :
    (∀ p ∈ paramsFilter, p.1 ∈ transactionFieldNames) ∧
    (∀ p ∈ paramsFilter, FieldByName zeroTransaction.fields p.1 = some p.2) ∧
    zeroTransaction.equal paramsFilter = .error .uncomparable ∧
    zeroTransaction.EqualFilter paramsFilter = .error .uncomparable ∧
    ¬ (zeroTransaction.equal paramsFilter = .ok true ↔
        ∀ p ∈ paramsFilter, FieldByName zeroTransaction.fields p.1 = some p.2) := by
  have h1 : ∀ p ∈ paramsFilter, p.1 ∈ transactionFieldNames := by
    simp [paramsFilter, transactionFieldNames]
  have h2 : ∀ p ∈ paramsFilter, FieldByName zeroTransaction.fields p.1 = some p.2 := by
    simp [paramsFilter, zeroTransaction, Transaction.fields, FieldByName]
  have h3 : zeroTransaction.equal paramsFilter = .error .uncomparable := by rfl
  refine ⟨h1, h2, h3, h3, ?_⟩
  intro h
  have h4 := h.mpr h2
  rw [h3] at h4
  cases h4

/-- C1: for every transaction and every filter whose fields all exist by name
on `Transaction` and are of a type that supports equality (no map-valued
`Params` field, as the contract of the matcher requires), `equal` and
`EqualFilter` return a boolean, and they return true if and only if every
field of the filter holds a value equal to the same-named field of the
transaction. -/
theorem equal_true_iff_fields_agree (trx : Transaction) (filter : Filter)
    (hname : ∀ p ∈ filter, p.1 ∈ transactionFieldNames)
    (hmap : ∀ m, ("Params", Value.map m) ∉ filter) :
    (∃ b, trx.equal filter = .ok b) ∧
    (trx.equal filter = .ok true ↔
      ∀ p ∈ filter, FieldByName trx.fields p.1 = some p.2) ∧
    (trx.EqualFilter filter = .ok true ↔
      ∀ p ∈ filter, FieldByName trx.fields p.1 = some p.2) := by
  have h := equal_eq_decide trx filter hname hmap
  refine ⟨⟨_, h⟩, ?_, ?_⟩
  · rw [h]; simp
  · rw [Transaction.EqualFilter, h]; simp

/-- Witness of `equal_true_iff_fields_agree`: the zero transaction and the
filter on id 0 and the empty status. -/
theorem equal_true_iff_fields_agree_witness :
    (∀ p ∈ idStatusFilter, p.1 ∈ transactionFieldNames) ∧
    (∀ m, ("Params", Value.map m) ∉ idStatusFilter) ∧
    ((∃ b, zeroTransaction.equal idStatusFilter = .ok b) ∧
      (zeroTransaction.equal idStatusFilter = .ok true ↔
        ∀ p ∈ idStatusFilter, FieldByName zeroTransaction.fields p.1 = some p.2) ∧
      (zeroTransaction.EqualFilter idStatusFilter = .ok true ↔
        ∀ p ∈ idStatusFilter, FieldByName zeroTransaction.fields p.1 = some p.2)) :=
  ⟨by simp [idStatusFilter, transactionFieldNames],
   by simp [idStatusFilter],
   equal_true_iff_fields_agree zeroTransaction idStatusFilter
     (by simp [idStatusFilter, transactionFieldNames]) (by simp [idStatusFilter])⟩

/-! ## GetByFilter -/

/-- The loop of `GetByFilter` finds nothing exactly when `equal` returns false
for every record. -/
theorem firstEqual_none_iff (filter : Filter) (lst : List Transaction) :
    firstEqual filter lst = .ok none ↔ ∀ t ∈ lst, t.equal filter = .ok false := by
  induction lst with
  | nil => simp [firstEqual]
  | cons a rest ih =>
    unfold firstEqual
    cases h : a.equal filter with
    | error p => simp [h]
    | ok b =>
      cases b with
      | true => simp [h]
      | false => simp [h, ih]

/-- The loop of `GetByFilter` returns `v` exactly when `v` is a record for
which `equal` returns true and `equal` returns false for every record at a
smaller index. -/
theorem firstEqual_some_iff (filter : Filter) (lst : List Transaction) (v : Transaction) :
    firstEqual filter lst = .ok (some v) ↔
      ∃ i : Nat, lst[i]? = some v ∧ v.equal filter = .ok true ∧
        ∀ j : Nat, j < i → ∀ t : Transaction, lst[j]? = some t → t.equal filter = .ok false := by
  induction lst with
  | nil => simp [firstEqual]
  | cons a rest ih =>
    unfold firstEqual
    constructor
    · intro hret
      cases h : a.equal filter with
      | error p => simp [h] at hret
      | ok b =>
        cases b with
        | true =>
          simp [h] at hret
          subst hret
          exact ⟨0, by simp, h, by intro j hj; omega⟩
        | false =>
          simp only [h] at hret
          obtain ⟨i, hi, hv, hlt⟩ := ih.mp hret
          refine ⟨i + 1, by simpa using hi, hv, ?_⟩
          intro j hj t ht
          cases j with
          | zero => simp at ht; subst ht; exact h
          | succ k => exact hlt k (by omega) t (by simpa using ht)
    · rintro ⟨i, hi, hv, hlt⟩
      cases i with
      | zero =>
        simp at hi
        subst hi
        simp [hv]
      | succ k =>
        have h0 : a.equal filter = .ok false := hlt 0 (by omega) a (by simp)
        simp only [h0]
        apply ih.mpr
        refine ⟨k, by simpa using hi, hv, ?_⟩
        intro j hj t ht
        exact hlt (j + 1) (by omega) t (by simpa using ht)


/-- Outside the filters that the matcher is for (a filter field that
`Transaction` does not have is a contract violation): on the list holding the
zero transaction and the filter with the field `Flavour`, `GetByFilter`
returns nothing, since `equal` panics on the first record. -/
theorem getByFilter_stray_filter_panics :
    (∀ t ∈ [zeroTransaction], t.equal strayFilter ≠ .ok true) ∧
    GetByFilter (clientOf [zeroTransaction]) strayFilter none = .error .invalidValue := by
  constructor
  · intro t ht
    simp only [List.mem_singleton] at ht
    subst ht
    intro h
    have h2 : zeroTransaction.equal strayFilter = .error .invalidValue := by rfl
    rw [h2] at h
    cases h
  · rfl

/-- For every fetched transaction list and every filter, also one on which
`equal` can panic: `GetByFilter` returns the record `v` exactly when `v` is
the first record in list order for which `equal(filter)` is true and
`equal(filter)` returns false for every record at a smaller index; it fails
with the "Transaction not found or wrong filter" error exactly when
`equal(filter)` returns false for every record of the list; and it returns
nothing else. -/
theorem getByFilter_first_match (c : Client) (filter : Filter) (opts : Option ListOptions)
    (lst : List Transaction) (resp : Option Response)
    (hfetch : c.List opts = .fetched lst resp) :
    (∀ v, GetByFilter c filter opts = .ok ⟨some v, resp, none, [opts]⟩ ↔
      ∃ i : Nat, lst[i]? = some v ∧ v.equal filter = .ok true ∧
        ∀ j : Nat, j < i → ∀ t : Transaction, lst[j]? = some t → t.equal filter = .ok false) ∧
    (GetByFilter c filter opts = .ok ⟨none, none, some (.notFound filter), [opts]⟩ ↔
      ∀ t ∈ lst, t.equal filter = .ok false) ∧
    (∀ r, GetByFilter c filter opts = .ok r →
      (∃ v, r = ⟨some v, resp, none, [opts]⟩) ∨
        r = ⟨none, none, some (.notFound filter), [opts]⟩) := by
  refine ⟨?_, ?_, ?_⟩
  · intro v
    rw [← firstEqual_some_iff]
    cases h : firstEqual filter lst with
    | error p => simp [GetByFilter, hfetch, h]
    | ok o => cases o <;> simp [GetByFilter, hfetch, h]
  · rw [← firstEqual_none_iff]
    cases h : firstEqual filter lst with
    | error p => simp [GetByFilter, hfetch, h]
    | ok o => cases o <;> simp [GetByFilter, hfetch, h]
  · intro r
    cases h : firstEqual filter lst with
    | error p => simp [GetByFilter, hfetch, h]
    | ok o =>
      cases o with
      | none =>
        simp only [GetByFilter, hfetch, h]
        intro hr
        exact Or.inr (Except.ok.inj hr).symm
      | some v =>
        simp only [GetByFilter, hfetch, h]
        intro hr
        exact Or.inl ⟨v, (Except.ok.inj hr).symm⟩

/-- An instance of `getByFilter_first_match`: the client that fetches the list
holding the zero transaction, and the filter on id 0 and the empty status. -/
theorem getByFilter_first_match_witness :
    (clientOf [zeroTransaction]).List none = .fetched [zeroTransaction] none ∧
    GetByFilter (clientOf [zeroTransaction]) idStatusFilter none
      = .ok ⟨some zeroTransaction, none, none, [none]⟩ :=
  ⟨rfl, ((getByFilter_first_match (clientOf [zeroTransaction]) idStatusFilter none
    [zeroTransaction] none rfl).1 zeroTransaction).mpr
      ⟨0, rfl, by rfl, by intro j hj; omega⟩⟩

/-- On a filter whose fields exist on `Transaction` and support equality, a
record that does not match is a record for which `equal` returns false. -/
theorem equal_ne_true_iff (trx : Transaction) (filter : Filter)
    (hname : ∀ p ∈ filter, p.1 ∈ transactionFieldNames)
    (hmap : ∀ m, ("Params", Value.map m) ∉ filter) :
    trx.equal filter ≠ .ok true ↔ trx.equal filter = .ok false := by
  rw [equal_eq_decide trx filter hname hmap]
  cases decide (∀ p ∈ filter, FieldByName trx.fields p.1 = some p.2) <;> simp

/-- C2: for every fetched transaction list and every filter (its fields exist
by name on `Transaction` and are of a type that supports equality, as the
contract of the matcher requires), `GetByFilter` returns the record `v`
exactly when `v` is the first record in list order for which `equal(filter)`
is true, no record at a smaller index matching; it fails with the
"Transaction not found or wrong filter" error exactly when no record of the
list matches; and it always does one or the other. -/
theorem getByFilter_first_or_not_found (c : Client) (filter : Filter)
    (opts : Option ListOptions) (lst : List Transaction) (resp : Option Response)
    (hname : ∀ p ∈ filter, p.1 ∈ transactionFieldNames)
    (hmap : ∀ m, ("Params", Value.map m) ∉ filter)
    (hfetch : c.List opts = .fetched lst resp) :
    (∀ v, GetByFilter c filter opts = .ok ⟨some v, resp, none, [opts]⟩ ↔
      ∃ i : Nat, lst[i]? = some v ∧ v.equal filter = .ok true ∧
        ∀ j : Nat, j < i → ∀ t : Transaction, lst[j]? = some t → t.equal filter ≠ .ok true) ∧
    (GetByFilter c filter opts = .ok ⟨none, none, some (.notFound filter), [opts]⟩ ↔
      ∀ t ∈ lst, t.equal filter ≠ .ok true) ∧
    ((∃ v, GetByFilter c filter opts = .ok ⟨some v, resp, none, [opts]⟩) ∨
      GetByFilter c filter opts = .ok ⟨none, none, some (.notFound filter), [opts]⟩) := by
  have hne : ∀ t : Transaction, t.equal filter ≠ .ok true ↔ t.equal filter = .ok false :=
    fun t => equal_ne_true_iff t filter hname hmap
  obtain ⟨h1, h2, _⟩ := getByFilter_first_match c filter opts lst resp hfetch
  refine ⟨?_, ?_, ?_⟩
  · intro v
    rw [h1 v]
    constructor
    · rintro ⟨i, hi, hv, hlt⟩
      exact ⟨i, hi, hv, fun j hj t ht => (hne t).mpr (hlt j hj t ht)⟩
    · rintro ⟨i, hi, hv, hlt⟩
      exact ⟨i, hi, hv, fun j hj t ht => (hne t).mp (hlt j hj t ht)⟩
  · rw [h2]
    constructor
    · intro h t ht
      exact (hne t).mpr (h t ht)
    · intro h t ht
      exact (hne t).mp (h t ht)
  · by_cases hall : ∀ t ∈ lst, t.equal filter = .ok false
    · exact Or.inr (h2.mpr hall)
    · left
      have hsome : ∀ l : List Transaction, (¬ ∀ t ∈ l, t.equal filter = .ok false) →
          ∃ v, firstEqual filter l = .ok (some v) := by
        intro l
        induction l with
        | nil => intro h; exact absurd (by simp) h
        | cons a rest ih =>
          intro h
          rw [firstEqual]
          rw [equal_eq_decide a filter hname hmap]
          cases hd : decide (∀ p ∈ filter, FieldByName a.fields p.1 = some p.2) with
          | true => exact ⟨a, rfl⟩
          | false =>
            apply ih
            intro hrest
            apply h
            intro t ht
            rcases List.mem_cons.mp ht with rfl | ht
            · rw [equal_eq_decide t filter hname hmap, hd]
            · exact hrest t ht
      obtain ⟨v, hv⟩ := hsome lst hall
      exact ⟨v, (h1 v).mpr ((firstEqual_some_iff filter lst v).mp hv)⟩

/-- Witness of `getByFilter_first_or_not_found`: the client that fetches the
list `[(id 1), (id 0), (id 0, action "x")]` and the filter on id 0 and the empty
status, which the record at index 1 is the first to match. -/
theorem getByFilter_first_or_not_found_witness :
    (∀ p ∈ idStatusFilter, p.1 ∈ transactionFieldNames) ∧
    (∀ m, ("Params", Value.map m) ∉ idStatusFilter) ∧
    GetByFilter (clientOf [vmRecord zeroTransaction 1 0, zeroTransaction,
        actionRecord "x" 0 0 0]) idStatusFilter none
      = .ok ⟨some zeroTransaction, none, none, [none]⟩ :=
  ⟨by simp [idStatusFilter, transactionFieldNames], by simp [idStatusFilter],
   ((getByFilter_first_or_not_found
      (clientOf [vmRecord zeroTransaction 1 0, zeroTransaction, actionRecord "x" 0 0 0])
      idStatusFilter none _ none
      (by simp [idStatusFilter, transactionFieldNames]) (by simp [idStatusFilter]) rfl).1
      zeroTransaction).mpr
     ⟨1, rfl, by rfl, by
       intro j hj t ht
       have hj0 : j = 0 := by omega
       subst hj0
       simp at ht
       subst ht
       have h : (vmRecord zeroTransaction 1 0).equal idStatusFilter = .ok false := by rfl
       rw [h]
       intro hc
       cases hc⟩⟩

/-! ## ListByGroup: the argument checks -/

/-- An id field below 1 makes the check of that field return the argument
error. -/
theorem idField_of_belowOne (filter : Filter) (field arg : String)
    (h : idBelowOne filter field = true) :
    idField filter field arg = .ok (.error (.argError arg "cannot be less than 1")) := by
  unfold idBelowOne at h
  unfold idField
  split at h <;> simp_all

/-- An id field that is absent or at least 1 passes the check. -/
theorem idField_of_valid (filter : Filter) (field arg : String)
    (h : idValid filter field = true) :
    ∃ n, idField filter field arg = .ok (.ok n) := by
  unfold idValid at h
  unfold idField
  split at h
  · simp_all
  · rename_i n hn
    simp only [decide_eq_true_eq] at h
    simp [hn, not_lt.mpr h]
  · simp at h

/-- An id field that is absent or an int is either below 1 or valid. -/
theorem idBelowOne_or_idValid (filter : Filter) (field : String)
    (h : idIntOrAbsent filter field = true) :
    (idBelowOne filter field = true ∧ idValid filter field = false) ∨
      (idBelowOne filter field = false ∧ idValid filter field = true) := by
  unfold idIntOrAbsent at h
  unfold idBelowOne idValid
  split at h
  · simp_all
  · rename_i n hn
    simp only [hn]
    by_cases hlt : n < 1
    · left; simp [hlt]
    · right; simp [hlt, not_lt.mp hlt]
  · simp at h

/-- Outside the filters that `ListByGroup` is for (its ids are ints): on the
filter whose `AssociatedObjectID` is a string, `ListByGroup` returns nothing,
since the type assertion `.(int)` on it panics before `ParentID`, which is 0
here, is looked at. -/
theorem listByGroup_text_id_panics :
    idBelowOne textIDFilter "ParentID" = true ∧
    ListByGroup (clientOf []) textIDFilter false none = .error .typeAssertion ∧
    ListByGroup (clientOf []) textIDFilter true none = .error .typeAssertion := by
  refine ⟨by rfl, by rfl, by rfl⟩

/-- C3: for every filter that carries an `AssociatedObjectID` with a value
below 1, or a `ParentID` with a value below 1 (the ids of a filter being
ints: `AssociatedObjectID` is then absent or an int), `ListByGroup` returns an
argument error and a nil list, and it returns them without having issued the
request for the transaction list, so before the list is fetched or
traversed. -/
theorem listByGroup_id_below_one (c : Client) (filter : Filter) (revers : Bool)
    (opt : Option ListOptions)
    (h : idBelowOne filter "AssociatedObjectID" = true ∨
      (idBelowOne filter "ParentID" = true ∧
        idIntOrAbsent filter "AssociatedObjectID" = true)) :
    ∃ arg, ListByGroup c filter revers opt
      = .ok ⟨none, none, some (.argError arg "cannot be less than 1"), []⟩ := by
  have key : ∀ hb : idBelowOne filter "AssociatedObjectID" = true,
      ListByGroup c filter revers opt
        = .ok ⟨none, none, some (.argError "associatedObjectID" "cannot be less than 1"), []⟩ := by
    intro hb
    simp [ListByGroup, idField_of_belowOne filter _ _ hb]
  rcases h with hb | ⟨hp, ha⟩
  · exact ⟨_, key hb⟩
  · rcases idBelowOne_or_idValid filter _ ha with ⟨hb, _⟩ | ⟨_, hv⟩
    · exact ⟨_, key hb⟩
    · obtain ⟨n, hn⟩ := idField_of_valid filter "AssociatedObjectID" "associatedObjectID" hv
      exact ⟨"parentID", by simp [ListByGroup, hn, idField_of_belowOne filter _ _ hp]⟩

/-- Witness of `listByGroup_id_below_one`: the filter whose only field is a
`ParentID` of 0. -/
theorem listByGroup_id_below_one_witness :
    (idBelowOne [("ParentID", .int 0)] "AssociatedObjectID" = true ∨
      (idBelowOne [("ParentID", .int 0)] "ParentID" = true ∧
        idIntOrAbsent [("ParentID", .int 0)] "AssociatedObjectID" = true)) ∧
    ∃ arg, ListByGroup failingClient [("ParentID", .int 0)] false none
      = .ok ⟨none, none, some (.argError arg "cannot be less than 1"), []⟩ :=
  ⟨Or.inr ⟨by rfl, by rfl⟩,
   listByGroup_id_below_one failingClient [("ParentID", .int 0)] false none
     (Or.inr ⟨by rfl, by rfl⟩)⟩


/-! ## ListByGroup: the scan -/

/-- Prepending to the reversed slice is the reversal of appending. -/
theorem push_reverse (g : Slice) (cur : Transaction) :
    push true (Slice.reverse g) cur = Slice.reverse (push false g cur) := by
  cases g <;> simp [push, Slice.reverse, Slice.toList]

/-- The adjacency tests in reverse mode on the reversed slice give the
reversal of what they give in forward mode. -/
theorem adjacent_reverse (at_ pt : String) (cur next : Transaction) (g : Slice) :
    adjacent at_ pt true cur next (Slice.reverse g)
      = Slice.reverse (adjacent at_ pt false cur next g) := by
  unfold adjacent
  simp only []
  split_ifs <;> simp [push_reverse]

/-- The scan in reverse mode from the reversed slice gives the reversal of
the scan in forward mode. -/
theorem scan_reverse (aid : Int) (at_ : String) (pid : Int) (pt : String)
    (lst : List Transaction) (next : Option Transaction) (g : Slice) :
    scan aid at_ pid pt true lst next (Slice.reverse g)
      = Slice.reverse (scan aid at_ pid pt false lst next g) := by
  induction lst generalizing next g with
  | nil => simp [scan]
  | cons cur rest ih =>
    unfold scan
    split_ifs
    · exact ih next g
    · exact ih next g
    · exact push_reverse g cur
    · simp only []
      cases rest with
      | nil =>
        cases next with
        | none => simpa using ih none g
        | some n => simp only [adjacent_reverse]; exact ih _ _
      | cons n tl => simp only [adjacent_reverse]; exact ih _ _

/-- C5: for every client (every transaction list), every filter (every
grouping key: associated object, parent or both) and every request, the
result of `ListByGroup` with `revers = true` is the result with
`revers = false` with the elements of the list reversed, the response, the
error and the requests being the same; a chain root changes nothing to it,
and a panic in one mode is the same panic in the other. -/
theorem listByGroup_reverse (c : Client) (filter : Filter) (opt : Option ListOptions) :
    ListByGroup c filter true opt
      = (ListByGroup c filter false opt).map
          (fun r => { r with val := Slice.reverse r.val }) := by
  unfold ListByGroup
  cases ha : idField filter "AssociatedObjectID" "associatedObjectID" with
  | error p => rfl
  | ok ra =>
    cases ra with
    | error e => rfl
    | ok aid =>
      cases hp : idField filter "ParentID" "parentID" with
      | error p => rfl
      | ok rp =>
        cases rp with
        | error e => rfl
        | ok pid =>
          simp only []
          cases hl : c.List opt with
          | failed resp err => rfl
          | fetched lst resp =>
            have h := scan_reverse aid (typeField filter "AssociatedObjectType") pid
              (typeField filter "ParentType") lst none none
            simp only [Slice.reverse] at h
            simp [Except.map, h, Slice.reverse]

/-- Appending or prepending a record never gives an allocated slice without
elements. -/
theorem push_ne_some_nil (revers : Bool) (g : Slice) (cur : Transaction) :
    push revers g cur ≠ some [] := by
  unfold push
  split_ifs <;> simp

/-- The adjacency tests never give an allocated slice without elements. -/
theorem adjacent_ne_some_nil (at_ pt : String) (revers : Bool) (cur next : Transaction)
    (g : Slice) (hg : g ≠ some []) : adjacent at_ pt revers cur next g ≠ some [] := by
  unfold adjacent
  simp only []
  split_ifs <;> first | exact hg | exact push_ne_some_nil _ _ _

/-- The scan never gives an allocated slice without elements. -/
theorem scan_ne_some_nil (aid : Int) (at_ : String) (pid : Int) (pt : String) (revers : Bool)
    (lst : List Transaction) (next : Option Transaction) (g : Slice) (hg : g ≠ some []) :
    scan aid at_ pid pt revers lst next g ≠ some [] := by
  induction lst generalizing next g with
  | nil => simpa [scan] using hg
  | cons cur rest ih =>
    unfold scan
    split_ifs
    · exact ih next g hg
    · exact ih next g hg
    · exact push_ne_some_nil _ _ _
    · simp only []
      apply ih
      split
      · exact hg
      · exact adjacent_ne_some_nil _ _ _ _ _ _ hg

/-- The list that `ListByGroup` returns is nil or has an element. -/
theorem listByGroup_val_ne_some_nil (c : Client) (filter : Filter) (revers : Bool)
    (opt : Option ListOptions) (r : Returned Slice)
    (h : ListByGroup c filter revers opt = .ok r) : r.val ≠ some [] := by
  unfold ListByGroup at h
  split at h
  · cases h
  · cases h; simp
  · split at h
    · cases h
    · cases h; simp
    · simp only [] at h
      split at h
      · cases h; simp
      · cases h
        exact scan_ne_some_nil _ _ _ _ _ _ _ _ (by simp)

/-- With at most one grouping key active, the adjacency tests of the forward
mode append the current record at most once. -/
theorem adjacent_one_key (at_ pt : String) (cur next : Transaction) (g : Slice)
    (hkey : at_ = "" ∨ pt = "") :
    adjacent at_ pt false cur next g = g ∨ adjacent at_ pt false cur next g = push false g cur := by
  unfold adjacent
  simp only []
  rcases hkey with h | h
  · subst h
    by_cases hp : pt ≠ "" ∧ (cur.ParentID = next.ParentID ∧
        cur.ParentType = next.ParentType ∧ cur.ChainID = next.ChainID)
    · right; simp [hp.1, hp.2]
    · left
      by_cases h1 : pt = ""
      · simp [h1]
      · have h2 := fun h3 => hp ⟨h1, h3⟩
        simp only [ne_eq, h1, not_false_eq_true, if_true]
        rw [if_neg h2]
        simp
  · subst h
    by_cases ha : at_ ≠ "" ∧ (cur.AssociatedObjectID = next.AssociatedObjectID ∧
        cur.AssociatedObjectType = next.AssociatedObjectType ∧ cur.ChainID = next.ChainID)
    · right; simp [ha.1, ha.2]
    · left
      by_cases h1 : at_ = ""
      · simp [h1]
      · have h2 := fun h3 => ha ⟨h1, h3⟩
        simp only [ne_eq, h1, not_false_eq_true, if_true]
        rw [if_neg h2]
        simp

/-- With at most one grouping key active, the forward scan appends a
sublist of the records it visits. -/
theorem scan_forward_sublist (aid : Int) (at_ : String) (pid : Int) (pt : String)
    (hkey : at_ = "" ∨ pt = "")
    (lst : List Transaction) (next : Option Transaction) (g : Slice) :
    ∃ s, List.Sublist s lst ∧
      Slice.toList (scan aid at_ pid pt false lst next g) = Slice.toList g ++ s := by
  induction lst generalizing next g with
  | nil => exact ⟨[], List.Sublist.refl _, by simp [scan]⟩
  | cons cur rest ih =>
    unfold scan
    split_ifs
    · obtain ⟨s, hs, he⟩ := ih next g
      exact ⟨s, hs.cons _, he⟩
    · obtain ⟨s, hs, he⟩ := ih next g
      exact ⟨s, hs.cons _, he⟩
    · exact ⟨[cur], by simp, by simp [push, Slice.toList]⟩
    · simp only []
      have hstep : ∀ (nx : Option Transaction) (g1 : Slice),
          (g1 = g ∨ g1 = push false g cur) →
          ∃ s, List.Sublist s (cur :: rest) ∧
            Slice.toList (scan aid at_ pid pt false rest nx g1) = Slice.toList g ++ s := by
        intro nx g1 hg1
        obtain ⟨s, hs, he⟩ := ih nx g1
        rcases hg1 with h | h
        · subst h
          exact ⟨s, hs.cons _, he⟩
        · subst h
          refine ⟨cur :: s, hs.cons₂ _, ?_⟩
          rw [he]
          simp [push, Slice.toList]
      apply hstep
      split
      · exact Or.inl rfl
      · exact adjacent_one_key _ _ _ _ _ hkey


/-! ## ListByGroup: what it returns -/

/-- An id of at least 1 is a valid id. -/
theorem idValid_of_idAtLeastOne (filter : Filter) (field : String)
    (h : idAtLeastOne filter field = true) : idValid filter field = true := by
  unfold idAtLeastOne at h
  unfold idValid
  split at h <;> simp_all

/-- With both id fields absent or at least 1, `ListByGroup` issues the request
for the list, hands a failure of it back wrapped, and otherwise returns the
scan of the fetched list without error. -/
theorem listByGroup_of_valid (c : Client) (filter : Filter) (revers : Bool)
    (opt : Option ListOptions)
    (ha : idValid filter "AssociatedObjectID" = true)
    (hp : idValid filter "ParentID" = true) :
    ∃ aid pid, ListByGroup c filter revers opt =
      match c.List opt with
      | .failed resp err => .ok ⟨none, resp, some (.wrapped "ListByGroup.lst: " err), [opt]⟩
      | .fetched lst resp =>
        .ok ⟨scan aid (typeField filter "AssociatedObjectType") pid
          (typeField filter "ParentType") revers lst none none, resp, none, [opt]⟩ := by
  obtain ⟨aid, haid⟩ := idField_of_valid filter "AssociatedObjectID" "associatedObjectID" ha
  obtain ⟨pid, hpid⟩ := idField_of_valid filter "ParentID" "parentID" hp
  refine ⟨aid, pid, ?_⟩
  simp only [ListByGroup, haid, hpid]

/-- C4, as stated, fails: the filter with the associated-object id 5 and an
empty associated-object type gets no argument error: `ListByGroup` issues the
request for the list, traverses it and returns the root it finds, without
error. -/
theorem listByGroup_untyped_filter_accepted :
    idAtLeastOne untypedFilter "AssociatedObjectID" = true ∧
    typeField untypedFilter "AssociatedObjectType" = "" ∧
    ListByGroup (clientOf [zeroTransaction]) untypedFilter false none
      = .ok ⟨some [zeroTransaction], none, none, [none]⟩ := by
  refine ⟨by rfl, by rfl, by rfl⟩

/-- C4 (amended): for every filter that groups by associated object with an
id of at least 1 but an empty associated-object type (or by parent with an id
of at least 1 but an empty parent type), and whose other id field is absent
or at least 1, `ListByGroup` raises no argument error: it issues the request
for the transaction list and returns an error exactly when that request
fails. -/
theorem listByGroup_empty_type_accepted (c : Client) (filter : Filter) (revers : Bool)
    (opt : Option ListOptions)
    (h : (idAtLeastOne filter "AssociatedObjectID" = true ∧
          typeField filter "AssociatedObjectType" = "" ∧
          idValid filter "ParentID" = true) ∨
        (idAtLeastOne filter "ParentID" = true ∧
          typeField filter "ParentType" = "" ∧
          idValid filter "AssociatedObjectID" = true)) :
    ∃ r, ListByGroup c filter revers opt = .ok r ∧ r.calls = [opt] ∧
      (∀ arg reason, r.err ≠ some (.argError arg reason)) ∧
      (r.err = none ↔ ∃ lst resp, c.List opt = .fetched lst resp) := by
  have hv : idValid filter "AssociatedObjectID" = true ∧ idValid filter "ParentID" = true := by
    rcases h with ⟨h1, _, h2⟩ | ⟨h1, _, h2⟩
    · exact ⟨idValid_of_idAtLeastOne _ _ h1, h2⟩
    · exact ⟨h2, idValid_of_idAtLeastOne _ _ h1⟩
  obtain ⟨aid, pid, hr⟩ := listByGroup_of_valid c filter revers opt hv.1 hv.2
  rw [hr]
  cases hl : c.List opt with
  | failed resp err => exact ⟨_, rfl, rfl, by simp, by simp⟩
  | fetched lst resp => exact ⟨_, rfl, rfl, by simp, by simp⟩

/-- Witness of `listByGroup_empty_type_accepted`: the filter with the
associated-object id 5 and an empty associated-object type. -/
theorem listByGroup_empty_type_accepted_witness :
    ((idAtLeastOne untypedFilter "AssociatedObjectID" = true ∧
          typeField untypedFilter "AssociatedObjectType" = "" ∧
          idValid untypedFilter "ParentID" = true) ∨
        (idAtLeastOne untypedFilter "ParentID" = true ∧
          typeField untypedFilter "ParentType" = "" ∧
          idValid untypedFilter "AssociatedObjectID" = true)) ∧
    ∃ r, ListByGroup failingClient untypedFilter true none = .ok r ∧ r.calls = [none] ∧
      (∀ arg reason, r.err ≠ some (.argError arg reason)) ∧
      (r.err = none ↔ ∃ lst resp, failingClient.List none = .fetched lst resp) :=
  ⟨Or.inl ⟨by rfl, by rfl, by rfl⟩,
   listByGroup_empty_type_accepted failingClient untypedFilter true none
     (Or.inl ⟨by rfl, by rfl, by rfl⟩)⟩

/-- Outside the filters that `ListByGroup` is for (its ids are ints): on the
filter whose `AssociatedObjectID` is a boolean, `ListByGroup` returns nothing,
error or list, since the type assertion `.(int)` on it panics; its `ParentID`,
which is -1 here, is never looked at. -/
theorem listByGroup_flag_id_panics :
    idBelowOne flagIDFilter "ParentID" = true ∧
    ListByGroup failingClient flagIDFilter false none = .error .typeAssertion ∧
    ¬ ∃ r, ListByGroup failingClient flagIDFilter false none = .ok r ∧ r.err ≠ none := by
  have h : ListByGroup failingClient flagIDFilter false none = .error .typeAssertion := by rfl
  refine ⟨by rfl, h, ?_⟩
  rintro ⟨r, hr, _⟩
  rw [h] at hr
  cases hr

/-- C6: for every filter (its ids being ints: `AssociatedObjectID` and
`ParentID` are absent or hold ints), `ListByGroup` returns, and it returns a
non-nil error if and only if the filter carries an `AssociatedObjectID` or a
`ParentID` below 1 or the request for the list fails; the error is never the
not-found error; and whenever the request succeeds with valid ids it returns
no error, whatever the chain, the empty one included. -/
theorem listByGroup_error_iff (c : Client) (filter : Filter) (revers : Bool)
    (opt : Option ListOptions)
    (ha : idIntOrAbsent filter "AssociatedObjectID" = true)
    (hp : idIntOrAbsent filter "ParentID" = true) :
    ∃ r, ListByGroup c filter revers opt = .ok r ∧
      (r.err ≠ none ↔
        (idBelowOne filter "AssociatedObjectID" = true ∨
          idBelowOne filter "ParentID" = true ∨
          ∃ resp e, c.List opt = .failed resp e)) ∧
      (∀ flt, r.err ≠ some (.notFound flt)) ∧
      ((idValid filter "AssociatedObjectID" = true ∧ idValid filter "ParentID" = true ∧
          ∃ lst resp, c.List opt = .fetched lst resp) → r.err = none) := by
  rcases idBelowOne_or_idValid filter _ ha with ⟨hab, hav⟩ | ⟨hab, hav⟩
  · refine ⟨⟨none, none, some (.argError "associatedObjectID" "cannot be less than 1"), []⟩,
      ?_, ?_, ?_, ?_⟩
    · simp [ListByGroup, idField_of_belowOne filter _ _ hab]
    · simp [hab]
    · simp
    · simp [hav]
  · obtain ⟨aid, haid⟩ := idField_of_valid filter "AssociatedObjectID" "associatedObjectID" hav
    rcases idBelowOne_or_idValid filter _ hp with ⟨hpb, hpv⟩ | ⟨hpb, hpv⟩
    · refine ⟨⟨none, none, some (.argError "parentID" "cannot be less than 1"), []⟩,
        ?_, ?_, ?_, ?_⟩
      · simp [ListByGroup, haid, idField_of_belowOne filter _ _ hpb]
      · simp [hpb]
      · simp
      · simp [hpv]
    · obtain ⟨aid2, pid, hr⟩ := listByGroup_of_valid c filter revers opt hav hpv
      rw [hr]
      cases hl : c.List opt with
      | failed resp err => exact ⟨_, rfl, by simp [hab, hpb], by simp, by simp⟩
      | fetched lst resp => exact ⟨_, rfl, by simp [hab, hpb], by simp, by simp⟩

/-- Witness of `listByGroup_error_iff`: the filter on the associated object
`(5, "VM")` and a client whose list request fails. -/
theorem listByGroup_error_iff_witness :
    idIntOrAbsent vmFilter "AssociatedObjectID" = true ∧
    idIntOrAbsent vmFilter "ParentID" = true ∧
    ∃ r, ListByGroup failingClient vmFilter false none = .ok r ∧
      (r.err ≠ none ↔
        (idBelowOne vmFilter "AssociatedObjectID" = true ∨
          idBelowOne vmFilter "ParentID" = true ∨
          ∃ resp e, failingClient.List none = .failed resp e)) ∧
      (∀ flt, r.err ≠ some (.notFound flt)) ∧
      ((idValid vmFilter "AssociatedObjectID" = true ∧ idValid vmFilter "ParentID" = true ∧
          ∃ lst resp, failingClient.List none = .fetched lst resp) → r.err = none) :=
  ⟨by rfl, by rfl, listByGroup_error_iff failingClient vmFilter false none (by rfl) (by rfl)⟩


/-- C7: for every filter, client and page size, when `ListByGroup` in
non-reverse mode returns `r`, `lastTransaction` returns, with the error of
`r`: the first element of the list of `r` when `r` carries no error, and nil
when that list is empty or `r` carries an error. -/
theorem lastTransaction_first_of_group (searchTransactions : Int) (c : Client)
    (filter : Filter) (r : Returned Slice)
    (h : ListByGroup c filter false (some ⟨searchTransactions⟩) = .ok r) :
    ∃ out, lastTransaction searchTransactions c filter = .ok out ∧ out.err = r.err ∧
      (r.err = none → out.val = (Slice.toList r.val).head?) ∧
      (Slice.toList r.val = [] ∨ r.err ≠ none → out.val = none) := by
  have hne := listByGroup_val_ne_some_nil c filter false _ r h
  unfold lastTransaction
  simp only [h]
  by_cases hcond : r.val = none ∨ r.err ≠ none
  · rw [if_pos hcond]
    refine ⟨_, rfl, rfl, ?_, ?_⟩
    · intro he
      rcases hcond with hv | hv
      · simp [hv, Slice.toList]
      · exact absurd he hv
    · intro _; rfl
  · rw [if_neg hcond]
    have hv : r.val ≠ none := fun hv => hcond (Or.inl hv)
    have he : r.err = none := by
      by_contra he
      exact hcond (Or.inr he)
    cases hval : r.val with
    | none => exact absurd hval hv
    | some l =>
      cases l with
      | nil => exact absurd hval hne
      | cons t tl =>
        refine ⟨⟨some t, r.resp, r.err, r.calls⟩, by simp [Slice.toList], rfl, ?_, ?_⟩
        · intro _; simp [Slice.toList]
        · rintro (hnil | hne2)
          · simp [Slice.toList] at hnil
          · exact absurd he hne2

/-- Witness of `lastTransaction_first_of_group`: the chain of virtual machine
5 stored newest first, with the page size 10. -/
theorem lastTransaction_first_of_group_witness :
    ListByGroup (clientOf [vmRecord zeroTransaction 3 2, vmRecord zeroTransaction 2 1,
        vmRecord zeroTransaction 1 0]) vmFilter false (some ⟨10⟩)
      = .ok ⟨some [vmRecord zeroTransaction 3 2, vmRecord zeroTransaction 2 1,
          vmRecord zeroTransaction 1 0], none, none, [some ⟨10⟩]⟩ ∧
    ∃ out, lastTransaction 10
        (clientOf [vmRecord zeroTransaction 3 2, vmRecord zeroTransaction 2 1,
          vmRecord zeroTransaction 1 0]) vmFilter = .ok out ∧
      out.err = none ∧
      (none = (none : Option Err) → out.val = some (vmRecord zeroTransaction 3 2)) ∧
      (([vmRecord zeroTransaction 3 2, vmRecord zeroTransaction 2 1,
          vmRecord zeroTransaction 1 0] = [] ∨ (none : Option Err) ≠ none) →
        out.val = none) :=
  ⟨by rfl,
   lastTransaction_first_of_group 10
    (clientOf [vmRecord zeroTransaction 3 2, vmRecord zeroTransaction 2 1,
      vmRecord zeroTransaction 1 0]) vmFilter
    ⟨some [vmRecord zeroTransaction 3 2, vmRecord zeroTransaction 2 1,
      vmRecord zeroTransaction 1 0], none, none, [some ⟨10⟩]⟩ (by rfl)⟩

/-- C8, as stated, fails: on the three-record list, grouped by the associated
object `(5, "VM")` in non-reverse mode, `ListByGroup` returns the single
record with id 1, not the two records with ids 2 and 1. -/
theorem listByGroup_vm_chain_not_two :
    (ListByGroup (clientOf [vmRecord zeroTransaction 1 0, vmRecord zeroTransaction 2 1,
        vmRecord zeroTransaction 3 2]) vmFilter false none).map
      (fun r => (Slice.toList r.val).map (fun t => t.ID)) = .ok [1] ∧
    (ListByGroup (clientOf [vmRecord zeroTransaction 1 0, vmRecord zeroTransaction 2 1,
        vmRecord zeroTransaction 3 2]) vmFilter false none).map
      (fun r => (Slice.toList r.val).map (fun t => t.ID)) ≠ .ok [2, 1] := by
  have h : (ListByGroup (clientOf [vmRecord zeroTransaction 1 0, vmRecord zeroTransaction 2 1,
        vmRecord zeroTransaction 3 2]) vmFilter false none).map
      (fun r => (Slice.toList r.val).map (fun t => t.ID)) = .ok [1] := by rfl
  refine ⟨h, ?_⟩
  rw [h]
  intro h2
  have h3 := Except.ok.inj h2
  simp at h3

/-- C8 (amended): for the three-record list
`[(id 1, assoc (5, "VM"), chain 9, dep 0), (id 2, ..., dep 1), (id 3, ..., dep 2)]`,
whatever the other fields of the records, `ListByGroup` grouped by the
associated object `(5, "VM")` in non-reverse mode returns exactly the one
record with id 1: the record at index 0 passes the key test and is a chain
root, so it is appended and the scan stops. -/
theorem listByGroup_vm_chain (b1 b2 b3 : Transaction) (opt : Option ListOptions) :
    ListByGroup (clientOf [vmRecord b1 1 0, vmRecord b2 2 1, vmRecord b3 3 2]) vmFilter false opt
      = .ok ⟨some [vmRecord b1 1 0], none, none, [opt]⟩ := by
  simp [ListByGroup, idField, typeField, FieldByName, vmFilter, clientOf, scan, vmRecord, push,
    Slice.toList, Value.String]

/-- The list in a result of `ListByGroup` on a fetched list is nil or the
scan of that list. -/
theorem listByGroup_val_of_fetched (c : Client) (filter : Filter) (revers : Bool)
    (opt : Option ListOptions) (lst : List Transaction) (resp : Option Response)
    (r : Returned Slice)
    (hfetch : c.List opt = .fetched lst resp)
    (h : ListByGroup c filter revers opt = .ok r) :
    r.val = none ∨ ∃ aid pid, r.val = scan aid (typeField filter "AssociatedObjectType") pid
      (typeField filter "ParentType") revers lst none none := by
  unfold ListByGroup at h
  split at h
  · cases h
  · cases h; exact Or.inl rfl
  · split at h
    · cases h
    · cases h; exact Or.inl rfl
    · simp only [hfetch] at h
      cases h
      exact Or.inr ⟨_, _, rfl⟩

/-- C9: for every fetched transaction list and every filter with exactly one
grouping key active (a non-empty associated-object type and an empty parent
type, or the converse), the list that `ListByGroup` returns in non-reverse
mode is a subsequence of the fetched list: there is a strictly increasing map
of indices that sends each index of the result to an index of the fetched list
holding the same record. -/
theorem listByGroup_forward_subsequence (c : Client) (filter : Filter)
    (opt : Option ListOptions) (lst : List Transaction) (resp : Option Response)
    (r : Returned Slice)
    (hkey : (typeField filter "AssociatedObjectType" ≠ "" ∧ typeField filter "ParentType" = "") ∨
      (typeField filter "AssociatedObjectType" = "" ∧ typeField filter "ParentType" ≠ ""))
    (hfetch : c.List opt = .fetched lst resp)
    (h : ListByGroup c filter false opt = .ok r) :
    List.Sublist (Slice.toList r.val) lst ∧
    ∃ e : ℕ ↪o ℕ, ∀ ix : ℕ, (Slice.toList r.val).get? ix = lst.get? (e ix) := by
  have hsub : List.Sublist (Slice.toList r.val) lst := by
    rcases listByGroup_val_of_fetched c filter false opt lst resp r hfetch h with hv | ⟨a, p, hv⟩
    · rw [hv]; simp [Slice.toList]
    · have hk : typeField filter "AssociatedObjectType" = "" ∨
          typeField filter "ParentType" = "" := by
        rcases hkey with ⟨_, h2⟩ | ⟨h1, _⟩
        · exact Or.inr h2
        · exact Or.inl h1
      obtain ⟨s, hs, he⟩ := scan_forward_sublist a _ p _ hk lst none none
      rw [hv, he]
      simpa [Slice.toList] using hs
  exact ⟨hsub, List.sublist_iff_exists_orderEmbedding_get?_eq.mp hsub⟩

/-- Witness of `listByGroup_forward_subsequence`: the chain of virtual machine
5 stored newest first, grouped by the associated object `(5, "VM")`. -/
theorem listByGroup_forward_subsequence_witness :
    (typeField vmFilter "AssociatedObjectType" ≠ "" ∧ typeField vmFilter "ParentType" = "") ∧
    ListByGroup (clientOf [vmRecord zeroTransaction 3 2, vmRecord zeroTransaction 2 1,
        zeroTransaction, vmRecord zeroTransaction 1 0]) vmFilter false none
      = .ok ⟨some [vmRecord zeroTransaction 3 2, vmRecord zeroTransaction 1 0],
          none, none, [none]⟩ ∧
    List.Sublist
      [vmRecord zeroTransaction 3 2, vmRecord zeroTransaction 1 0]
      [vmRecord zeroTransaction 3 2, vmRecord zeroTransaction 2 1, zeroTransaction,
        vmRecord zeroTransaction 1 0] ∧
    ∃ e : ℕ ↪o ℕ, ∀ ix : ℕ,
      [vmRecord zeroTransaction 3 2, vmRecord zeroTransaction 1 0].get? ix
        = [vmRecord zeroTransaction 3 2, vmRecord zeroTransaction 2 1, zeroTransaction,
            vmRecord zeroTransaction 1 0].get? (e ix) :=
  ⟨⟨by decide, by rfl⟩, by rfl,
   listByGroup_forward_subsequence
    (clientOf [vmRecord zeroTransaction 3 2, vmRecord zeroTransaction 2 1, zeroTransaction,
      vmRecord zeroTransaction 1 0]) vmFilter none _ none
    ⟨some [vmRecord zeroTransaction 3 2, vmRecord zeroTransaction 1 0], none, none, [none]⟩
    (Or.inl ⟨by decide, by rfl⟩) rfl (by rfl)⟩

/-- C10: for every filter whose id fields are absent or at least 1 (every
valid grouping key), `ListByGroup` on an empty fetched transaction list
returns the nil list, which has no element, and no error, in forward and in
reverse mode. -/
theorem listByGroup_empty_list (c : Client) (filter : Filter) (revers : Bool)
    (opt : Option ListOptions) (resp : Option Response)
    (ha : idValid filter "AssociatedObjectID" = true)
    (hp : idValid filter "ParentID" = true)
    (hfetch : c.List opt = .fetched [] resp) :
    ListByGroup c filter revers opt = .ok ⟨none, resp, none, [opt]⟩ ∧
    ∀ r, ListByGroup c filter revers opt = .ok r → Slice.toList r.val = [] ∧ r.err = none := by
  obtain ⟨aid, pid, hr⟩ := listByGroup_of_valid c filter revers opt ha hp
  rw [hfetch] at hr
  simp only [scan] at hr
  refine ⟨hr, ?_⟩
  intro r h
  rw [hr] at h
  cases h
  exact ⟨rfl, rfl⟩

/-- Witness of `listByGroup_empty_list`: the filter on a parent `(7, "User")`,
in reverse mode, on a client that fetches the empty list. -/
theorem listByGroup_empty_list_witness :
    idValid parentFilter "AssociatedObjectID" = true ∧
    idValid parentFilter "ParentID" = true ∧
    (clientOf []).List none = .fetched [] none ∧
    ListByGroup (clientOf []) parentFilter true none = .ok ⟨none, none, none, [none]⟩ :=
  ⟨by rfl, by rfl, rfl,
   (listByGroup_empty_list (clientOf []) parentFilter true none none (by rfl) (by rfl) rfl).1⟩


/-! ## The filter matcher: copies, zero values and stray fields -/

/-- One turn of the comparison loop. -/
theorem equal_cons (trx : Transaction) (name : String) (value : Value) (rest : Filter) :
    trx.equal ((name, value) :: rest) =
      match FieldByName trx.fields name with
      | none => .error .invalidValue
      | some filterValue =>
        match ifaceNe value filterValue with
        | .error p => .error p
        | .ok true => .ok false
        | .ok false => trx.equal rest := by
  rw [Transaction.equal]

/-- The comparison loop on a concatenation: the first part decides unless it
returns true, and then the second part decides. -/
theorem equal_append (trx : Transaction) (pre rest : Filter) :
    trx.equal (pre ++ rest) =
      match trx.equal pre with
      | .error p => .error p
      | .ok false => .ok false
      | .ok true => trx.equal rest := by
  induction pre with
  | nil => simp [Transaction.equal]
  | cons p pre ih =>
    obtain ⟨name, value⟩ := p
    simp only [List.cons_append]
    rw [equal_cons, equal_cons]
    cases FieldByName trx.fields name with
    | none => rfl
    | some fv =>
      simp only []
      cases ifaceNe value fv with
      | error e => rfl
      | ok b =>
        cases b with
        | true => rfl
        | false => simpa using ih

/-- A name that is not a field name of `Transaction` is not found on a
transaction. -/
theorem FieldByName_fields_of_not_mem (trx : Transaction) (name : String)
    (h : name ∉ transactionFieldNames) : FieldByName trx.fields name = none := by
  simp only [transactionFieldNames, List.mem_cons, List.mem_singleton, List.not_mem_nil,
    or_false, not_or] at h
  obtain ⟨h1, h2, h3, h4, h5, h6, h7, h8, h9, h10, h11, h12, h13, h14, h15, h16, h17, h18,
    h19, h20, h21, h22⟩ := h
  simp [FieldByName, Transaction.fields, Ne.symm h1, Ne.symm h2, Ne.symm h3, Ne.symm h4,
    Ne.symm h5, Ne.symm h6, Ne.symm h7, Ne.symm h8, Ne.symm h9, Ne.symm h10, Ne.symm h11,
    Ne.symm h12, Ne.symm h13, Ne.symm h14, Ne.symm h15, Ne.symm h16, Ne.symm h17, Ne.symm h18,
    Ne.symm h19, Ne.symm h20, Ne.symm h21, Ne.symm h22]

/-- C11, as stated, fails: for the record of virtual machine 5 with id 1, the
filter built by copying every field of the record does not make `equal`
return true: the copy holds the `Params` map, and comparing it with the
record's own `Params` panics. -/
theorem equal_full_copy_panics :
    (vmRecord zeroTransaction 1 0).equal (vmRecord zeroTransaction 1 0).fields
      = .error .uncomparable ∧
    (vmRecord zeroTransaction 1 0).equal (vmRecord zeroTransaction 1 0).fields ≠ .ok true := by
  have h : (vmRecord zeroTransaction 1 0).equal (vmRecord zeroTransaction 1 0).fields
      = .error .uncomparable := by rfl
  refine ⟨h, ?_⟩
  rw [h]
  intro h2
  cases h2

/-- C11 (amended): for every transaction, `equal` and `EqualFilter` return
true on the filter built by copying every field of the transaction except the
map-valued `Params`. -/
theorem equal_copy_without_params (trx : Transaction) :
    trx.equal (copyWithoutParams trx) = .ok true ∧
    trx.EqualFilter (copyWithoutParams trx) = .ok true := by
  have h : trx.equal (copyWithoutParams trx) = .ok true := by
    simp [copyWithoutParams, Transaction.fields, List.filter, Transaction.equal, FieldByName,
      ifaceNe]
  exact ⟨h, h⟩


/-- A zero value differs, as an interface value, from every value that is not
a zero value. -/
theorem ifaceNe_zero (zero w : Value) (hz : zero.isZero = true) (hw : w.isZero = false) :
    ifaceNe zero w = .ok true := by
  cases zero <;> cases w <;> simp_all [ifaceNe, Value.isZero, bne]
  all_goals (intro h; simp_all)

/-- C12: a filter field holding its zero value (0, the empty string, false)
is not a "don't care": for every transaction whose same-named field is not a
zero value, `equal` and `EqualFilter` return false on the filter with that
zero-valued field; with other fields declared before and after it, `equal`
returns false as soon as it gets to the field, so that it returns what the
fields before it return with true replaced by false, and never true. -/
theorem equal_zero_field_false (trx : Transaction) (name : String) (zero w : Value)
    (hz : zero.isZero = true)
    (hfield : FieldByName trx.fields name = some w)
    (hw : w.isZero = false) :
    trx.equal [(name, zero)] = .ok false ∧
    trx.EqualFilter [(name, zero)] = .ok false ∧
    (∀ pre post : Filter,
      trx.equal (pre ++ (name, zero) :: post) = (trx.equal pre).map (fun _ => false)) ∧
    (∀ pre post : Filter, trx.equal (pre ++ (name, zero) :: post) ≠ .ok true) := by
  have hcons : ∀ post : Filter, trx.equal ((name, zero) :: post) = .ok false := by
    intro post
    rw [equal_cons, hfield]
    simp only [ifaceNe_zero zero w hz hw]
  have happ : ∀ pre post : Filter,
      trx.equal (pre ++ (name, zero) :: post) = (trx.equal pre).map (fun _ => false) := by
    intro pre post
    rw [equal_append, hcons]
    cases trx.equal pre with
    | error p => rfl
    | ok b => cases b <;> rfl
  refine ⟨hcons [], hcons [], happ, ?_⟩
  intro pre post
  rw [happ]
  cases trx.equal pre with
  | error p => simp [Except.map]
  | ok b => simp [Except.map]

/-- Witness of `equal_zero_field_false`: the record with id 1 and the filter
field `ID` holding 0. -/
theorem equal_zero_field_false_witness :
    (Value.int 0).isZero = true ∧
    FieldByName (vmRecord zeroTransaction 1 0).fields "ID" = some (.int 1) ∧
    (Value.int 1).isZero = false ∧
    (vmRecord zeroTransaction 1 0).equal [("ID", .int 0)] = .ok false :=
  ⟨by rfl, by rfl, by rfl,
   (equal_zero_field_false (vmRecord zeroTransaction 1 0) "ID" (.int 0) (.int 1)
     (by rfl) (by rfl) (by rfl)).1⟩

/-- C13: for every filter that declares a field whose name does not exist on
`Transaction`, `equal` panics when it reaches that field, that is when every
field declared before it matched; it returns false only when an earlier field
differs, and it never returns true (the same for `EqualFilter`). -/
theorem equal_stray_field_panics (trx : Transaction) (name : String) (value : Value)
    (pre post : Filter)
    (hname : name ∉ transactionFieldNames) :
    (trx.equal pre = .ok true →
      trx.equal (pre ++ (name, value) :: post) = .error .invalidValue) ∧
    trx.equal (pre ++ (name, value) :: post) =
      (trx.equal pre).bind (fun b => if b then .error .invalidValue else .ok false) ∧
    trx.equal (pre ++ (name, value) :: post) ≠ .ok true ∧
    trx.EqualFilter (pre ++ (name, value) :: post) ≠ .ok true := by
  have hcons : trx.equal ((name, value) :: post) = .error .invalidValue := by
    rw [equal_cons, FieldByName_fields_of_not_mem trx name hname]
  have happ : trx.equal (pre ++ (name, value) :: post) =
      (trx.equal pre).bind (fun b => if b then .error .invalidValue else .ok false) := by
    rw [equal_append, hcons]
    cases trx.equal pre with
    | error p => rfl
    | ok b => cases b <;> rfl
  have hne : trx.equal (pre ++ (name, value) :: post) ≠ .ok true := by
    rw [happ]
    cases trx.equal pre with
    | error p => simp [Except.bind]
    | ok b => cases b <;> simp [Except.bind]
  refine ⟨?_, happ, hne, hne⟩
  intro hpre
  rw [happ, hpre]
  rfl

/-- Witness of `equal_stray_field_panics`: the zero transaction and the filter
with the field `Flavour` declared after a matching `ID`. -/
theorem equal_stray_field_panics_witness :
    "Flavour" ∉ transactionFieldNames ∧
    zeroTransaction.equal [("ID", .int 0)] = .ok true ∧
    zeroTransaction.equal ([("ID", .int 0)] ++ ("Flavour", .int 1) :: [("Status", .str "")])
      = .error .invalidValue :=
  ⟨by decide, by rfl,
   (equal_stray_field_panics zeroTransaction "Flavour" (.int 1) [("ID", .int 0)]
     [("Status", .str "")] (by decide)).1 (by rfl)⟩


/-! ## Virtual machine actions: the path of UnAssignIPAddress -/

/-- For every virtual machine id and ip address id, and whatever the base path
and the format suffix, the path built from the request of `UnAssignIPAddress`
has the request type `unassign_ip_address` as its third segment: the request
carries no `path` entry, and the `action` entry is not read. -/
theorem virtualMachineActionPath_unassign (virtualMachineBasePath apiFormat : String)
    (id ipID : Int) :
    virtualMachineActionPath virtualMachineBasePath apiFormat id (unAssignIPAddressRequest ipID)
      = .ok (.ok (virtualMachineBasePath ++ "/" ++ toString id ++ "/" ++ "unassign_ip_address" ++
          "/" ++ toString ipID ++ apiFormat)) := by
  simp [virtualMachineActionPath, unAssignIPAddressRequest, ActionRequest.index]

/-- C14 fails on the code: for the virtual machine 7 and the ip address 3,
with the base path `virtual_machines` and the format `.json`, the path built
from the request of `UnAssignIPAddress` is
`virtual_machines/7/unassign_ip_address/3.json` and not
`virtual_machines/7/ip_addresses/3.json`, the URL that the comment in
`virtualMachineActionPath` gives. -/
theorem unassign_path_diverges_from_comment :
    virtualMachineActionPath "virtual_machines" ".json" 7 (unAssignIPAddressRequest 3)
      = .ok (.ok "virtual_machines/7/unassign_ip_address/3.json") ∧
    virtualMachineActionPath "virtual_machines" ".json" 7 (unAssignIPAddressRequest 3)
      ≠ .ok (.ok "virtual_machines/7/ip_addresses/3.json") := by
  have h : virtualMachineActionPath "virtual_machines" ".json" 7 (unAssignIPAddressRequest 3)
      = .ok (.ok "virtual_machines/7/unassign_ip_address/3.json") := by rfl
  refine ⟨h, ?_⟩
  rw [h]
  intro h2
  have h3 := Except.ok.inj (Except.ok.inj h2)
  exact absurd h3 (by decide)


/-! ## ListByGroup: the turns of the scan -/

/-- A record that fails a key test of an active key is skipped. -/
theorem scan_cons_skip (aid : Int) (at_ : String) (pid : Int) (pt : String) (revers : Bool)
    (cur : Transaction) (rest : List Transaction) (next : Option Transaction) (g : Slice)
    (h : (at_ ≠ "" ∧ (cur.AssociatedObjectID ≠ aid ∨ cur.AssociatedObjectType ≠ at_)) ∨
      (pt ≠ "" ∧ (cur.ParentID ≠ pid ∨ cur.ParentType ≠ pt))) :
    scan aid at_ pid pt revers (cur :: rest) next g = scan aid at_ pid pt revers rest next g := by
  conv_lhs => unfold scan
  by_cases h1 : at_ ≠ "" ∧ (cur.AssociatedObjectID ≠ aid ∨ cur.AssociatedObjectType ≠ at_)
  · rw [if_pos h1]
  · rw [if_neg h1]
    have h2 := h.resolve_left h1
    rw [if_pos h2]

/-- A record that passes the key tests and is a chain root is pushed and ends
the scan. -/
theorem scan_cons_root (aid : Int) (at_ : String) (pid : Int) (pt : String) (revers : Bool)
    (cur : Transaction) (rest : List Transaction) (next : Option Transaction) (g : Slice)
    (h1 : ¬ (at_ ≠ "" ∧ (cur.AssociatedObjectID ≠ aid ∨ cur.AssociatedObjectType ≠ at_)))
    (h2 : ¬ (pt ≠ "" ∧ (cur.ParentID ≠ pid ∨ cur.ParentType ≠ pt)))
    (hdep : cur.DependentTransactionID = 0) :
    scan aid at_ pid pt revers (cur :: rest) next g = push revers g cur := by
  conv_lhs => unfold scan
  rw [if_neg h1, if_neg h2, if_pos hdep]

/-- A record that passes the key tests and is not a chain root updates `next`
when a record follows, runs the adjacency tests when `next` is set, and the
scan goes on. -/
theorem scan_cons_step (aid : Int) (at_ : String) (pid : Int) (pt : String) (revers : Bool)
    (cur : Transaction) (rest : List Transaction) (next : Option Transaction) (g : Slice)
    (h1 : ¬ (at_ ≠ "" ∧ (cur.AssociatedObjectID ≠ aid ∨ cur.AssociatedObjectType ≠ at_)))
    (h2 : ¬ (pt ≠ "" ∧ (cur.ParentID ≠ pid ∨ cur.ParentType ≠ pt)))
    (hdep : cur.DependentTransactionID ≠ 0) :
    scan aid at_ pid pt revers (cur :: rest) next g =
      scan aid at_ pid pt revers rest
        (match rest with
          | [] => next
          | n :: _ => some n)
        (match (match rest with
            | [] => next
            | n :: _ => some n) with
          | none => g
          | some n => adjacent at_ pt revers cur n g) := by
  conv_lhs => unfold scan
  rw [if_neg h1, if_neg h2, if_neg hdep]

/-- Every turn of the scan on a record that is not a chain root passing the
key tests leaves a scan of the remaining records, from some state. -/
theorem scan_cons_no_root (aid : Int) (at_ : String) (pid : Int) (pt : String) (revers : Bool)
    (cur : Transaction) (rest : List Transaction) (next : Option Transaction) (g : Slice)
    (h : ¬ (¬ (at_ ≠ "" ∧ (cur.AssociatedObjectID ≠ aid ∨ cur.AssociatedObjectType ≠ at_)) ∧
      ¬ (pt ≠ "" ∧ (cur.ParentID ≠ pid ∨ cur.ParentType ≠ pt)) ∧
      cur.DependentTransactionID = 0)) :
    ∃ next1 g1, scan aid at_ pid pt revers (cur :: rest) next g
      = scan aid at_ pid pt revers rest next1 g1 := by
  by_cases h1 : at_ ≠ "" ∧ (cur.AssociatedObjectID ≠ aid ∨ cur.AssociatedObjectType ≠ at_)
  · exact ⟨next, g, scan_cons_skip _ _ _ _ _ _ _ _ _ (Or.inl h1)⟩
  · by_cases h2 : pt ≠ "" ∧ (cur.ParentID ≠ pid ∨ cur.ParentType ≠ pt)
    · exact ⟨next, g, scan_cons_skip _ _ _ _ _ _ _ _ _ (Or.inr h2)⟩
    · have hdep : cur.DependentTransactionID ≠ 0 := fun hd => h ⟨h1, h2, hd⟩
      exact ⟨_, _, scan_cons_step _ _ _ _ _ _ _ _ _ h1 h2 hdep⟩

/-- Across a run of records none of which is a chain root passing the key
tests, the scan goes on to the records after the run, from some state. -/
theorem scan_append_no_root (aid : Int) (at_ : String) (pid : Int) (pt : String) (revers : Bool)
    (pre rest : List Transaction)
    (h : ∀ t ∈ pre,
      ¬ (¬ (at_ ≠ "" ∧ (t.AssociatedObjectID ≠ aid ∨ t.AssociatedObjectType ≠ at_)) ∧
        ¬ (pt ≠ "" ∧ (t.ParentID ≠ pid ∨ t.ParentType ≠ pt)) ∧
        t.DependentTransactionID = 0))
    (next : Option Transaction) (g : Slice) :
    ∃ next1 g1, scan aid at_ pid pt revers (pre ++ rest) next g
      = scan aid at_ pid pt revers rest next1 g1 := by
  induction pre generalizing next g with
  | nil => exact ⟨next, g, rfl⟩
  | cons cur pre ih =>
    obtain ⟨n1, g1, h1⟩ := scan_cons_no_root aid at_ pid pt revers cur (pre ++ rest) next g
      (h cur (by simp))
    obtain ⟨n2, g2, h2⟩ := ih (fun t ht => h t (List.mem_cons_of_mem _ ht)) n1 g1
    exact ⟨n2, g2, by rw [List.cons_append, h1, h2]⟩

/-- The records after a chain root that passes the key tests have no effect
on the scan. -/
theorem scan_stops_at_root (aid : Int) (at_ : String) (pid : Int) (pt : String) (revers : Bool)
    (pre : List Transaction) (root : Transaction) (tail : List Transaction)
    (h1 : ¬ (at_ ≠ "" ∧ (root.AssociatedObjectID ≠ aid ∨ root.AssociatedObjectType ≠ at_)))
    (h2 : ¬ (pt ≠ "" ∧ (root.ParentID ≠ pid ∨ root.ParentType ≠ pt)))
    (hdep : root.DependentTransactionID = 0)
    (next : Option Transaction) (g : Slice) :
    scan aid at_ pid pt revers (pre ++ root :: tail) next g
      = scan aid at_ pid pt revers (pre ++ [root]) next g := by
  induction pre generalizing next g with
  | nil =>
    simp only [List.nil_append]
    rw [scan_cons_root _ _ _ _ _ _ _ _ _ h1 h2 hdep, scan_cons_root _ _ _ _ _ _ _ _ _ h1 h2 hdep]
  | cons cur pre ih =>
    simp only [List.cons_append]
    by_cases hs : (at_ ≠ "" ∧ (cur.AssociatedObjectID ≠ aid ∨ cur.AssociatedObjectType ≠ at_)) ∨
        (pt ≠ "" ∧ (cur.ParentID ≠ pid ∨ cur.ParentType ≠ pt))
    · rw [scan_cons_skip _ _ _ _ _ _ _ _ _ hs, scan_cons_skip _ _ _ _ _ _ _ _ _ hs]
      exact ih next g
    · have c1 := fun h => hs (Or.inl h)
      have c2 := fun h => hs (Or.inr h)
      by_cases hd : cur.DependentTransactionID = 0
      · rw [scan_cons_root _ _ _ _ _ _ _ _ _ c1 c2 hd, scan_cons_root _ _ _ _ _ _ _ _ _ c1 c2 hd]
      · rw [scan_cons_step _ _ _ _ _ _ _ _ _ c1 c2 hd, scan_cons_step _ _ _ _ _ _ _ _ _ c1 c2 hd]
        cases pre with
        | nil => exact ih _ _
        | cons a pre1 => exact ih _ _


/-! ## ListByGroup: the records of the result -/

/-- The elements of a slice after a push. -/
theorem toList_push (revers : Bool) (g : Slice) (cur : Transaction) :
    Slice.toList (push revers g cur)
      = if revers = false then Slice.toList g ++ [cur] else cur :: Slice.toList g := by
  unfold push
  split_ifs <;> rfl

/-- The adjacency tests add nothing but the current record. -/
theorem mem_adjacent (at_ pt : String) (revers : Bool) (cur next : Transaction) (g : Slice)
    (t : Transaction) (ht : t ∈ Slice.toList (adjacent at_ pt revers cur next g)) :
    t = cur ∨ t ∈ Slice.toList g := by
  have hpush : ∀ g0 : Slice, t ∈ Slice.toList (push revers g0 cur) →
      t = cur ∨ t ∈ Slice.toList g0 := by
    intro g0 h0
    rw [toList_push] at h0
    split_ifs at h0
    · simp at h0; tauto
    · simp at h0; tauto
  unfold adjacent at ht
  simp only [] at ht
  split_ifs at ht <;> first
    | exact Or.inr ht
    | exact hpush _ ht
    | (rcases hpush _ ht with h | h
       · exact Or.inl h
       · exact hpush _ h)

/-- Every record that the scan adds is a record of the list that passed the
tests of the active keys. -/
theorem mem_scan (aid : Int) (at_ : String) (pid : Int) (pt : String) (revers : Bool)
    (lst : List Transaction) (next : Option Transaction) (g : Slice) (t : Transaction)
    (ht : t ∈ Slice.toList (scan aid at_ pid pt revers lst next g)) :
    t ∈ Slice.toList g ∨
      (t ∈ lst ∧
        (at_ ≠ "" → t.AssociatedObjectID = aid ∧ t.AssociatedObjectType = at_) ∧
        (pt ≠ "" → t.ParentID = pid ∧ t.ParentType = pt)) := by
  induction lst generalizing next g with
  | nil => left; simpa [scan] using ht
  | cons cur rest ih =>
    have hlift : ∀ nx g0, t ∈ Slice.toList (scan aid at_ pid pt revers rest nx g0) →
        (t ∈ Slice.toList g0 → t ∈ Slice.toList g ∨
          (t ∈ cur :: rest ∧
            (at_ ≠ "" → t.AssociatedObjectID = aid ∧ t.AssociatedObjectType = at_) ∧
            (pt ≠ "" → t.ParentID = pid ∧ t.ParentType = pt))) →
        t ∈ Slice.toList g ∨
          (t ∈ cur :: rest ∧
            (at_ ≠ "" → t.AssociatedObjectID = aid ∧ t.AssociatedObjectType = at_) ∧
            (pt ≠ "" → t.ParentID = pid ∧ t.ParentType = pt)) := by
      intro nx g0 h0 hg0
      rcases ih nx g0 h0 with h | ⟨hm, hk⟩
      · exact hg0 h
      · exact Or.inr ⟨List.mem_cons_of_mem _ hm, hk⟩
    by_cases hs : (at_ ≠ "" ∧ (cur.AssociatedObjectID ≠ aid ∨ cur.AssociatedObjectType ≠ at_)) ∨
        (pt ≠ "" ∧ (cur.ParentID ≠ pid ∨ cur.ParentType ≠ pt))
    · rw [scan_cons_skip _ _ _ _ _ _ _ _ _ hs] at ht
      exact hlift _ _ ht Or.inl
    · have c1 := fun h => hs (Or.inl h)
      have c2 := fun h => hs (Or.inr h)
      have hcur : (at_ ≠ "" → cur.AssociatedObjectID = aid ∧ cur.AssociatedObjectType = at_) ∧
          (pt ≠ "" → cur.ParentID = pid ∧ cur.ParentType = pt) := by
        constructor
        · intro ha
          by_contra hc
          exact c1 ⟨ha, by tauto⟩
        · intro hp
          by_contra hc
          exact c2 ⟨hp, by tauto⟩
      have hcur2 : (t = cur ∨ t ∈ Slice.toList g) →
          t ∈ Slice.toList g ∨
          (t ∈ cur :: rest ∧
            (at_ ≠ "" → t.AssociatedObjectID = aid ∧ t.AssociatedObjectType = at_) ∧
            (pt ≠ "" → t.ParentID = pid ∧ t.ParentType = pt)) := by
        rintro (h | h)
        · subst h
          exact Or.inr ⟨by simp, hcur⟩
        · exact Or.inl h
      by_cases hd : cur.DependentTransactionID = 0
      · rw [scan_cons_root _ _ _ _ _ _ _ _ _ c1 c2 hd, toList_push] at ht
        split_ifs at ht
        · simp at ht
          exact hcur2 (by tauto)
        · simp at ht
          exact hcur2 (by tauto)
      · rw [scan_cons_step _ _ _ _ _ _ _ _ _ c1 c2 hd] at ht
        apply hlift _ _ ht
        intro hmem
        split at hmem
        · exact Or.inl hmem
        · exact hcur2 (mem_adjacent _ _ _ _ _ _ _ hmem)

/-- The id that passes the check of an id field is the id of the filter. -/
theorem idField_ok_eq_filterID (filter : Filter) (field arg : String) (n : Int)
    (h : idField filter field arg = .ok (.ok n)) : n = filterID filter field := by
  unfold idField at h
  unfold filterID
  split at h
  · rename_i hf
    simp only [hf]
    cases h
    rfl
  · rename_i m hf
    simp only [hf]
    split_ifs at h
    · cases h
    · cases h
      rfl
  · cases h

/-- What `ListByGroup` returns on a fetched list: an argument error with the
nil list, or the scan of the list for the ids and types of the filter, without
error. -/
theorem listByGroup_fetched_cases (c : Client) (filter : Filter) (revers : Bool)
    (opt : Option ListOptions) (lst : List Transaction) (resp : Option Response)
    (r : Returned Slice)
    (hfetch : c.List opt = .fetched lst resp)
    (h : ListByGroup c filter revers opt = .ok r) :
    (r.val = none ∧ r.err ≠ none) ∨
      (r.err = none ∧
        r.val = scan (filterID filter "AssociatedObjectID")
          (typeField filter "AssociatedObjectType") (filterID filter "ParentID")
          (typeField filter "ParentType") revers lst none none) := by
  unfold ListByGroup at h
  split at h
  · cases h
  · cases h; exact Or.inl ⟨rfl, by simp⟩
  · rename_i aid ha
    split at h
    · cases h
    · cases h; exact Or.inl ⟨rfl, by simp⟩
    · rename_i pid hp
      simp only [hfetch] at h
      cases h
      rw [idField_ok_eq_filterID _ _ _ _ ha, idField_ok_eq_filterID _ _ _ _ hp]
      exact Or.inr ⟨rfl, rfl⟩

/-- The key test of a filter, spelled out as the two conditions of the loop. -/
theorem keyTest_iff (filter : Filter) (cur : Transaction) :
    keyTest filter cur = true ↔
      (¬ (typeField filter "AssociatedObjectType" ≠ "" ∧
          (cur.AssociatedObjectID ≠ filterID filter "AssociatedObjectID" ∨
            cur.AssociatedObjectType ≠ typeField filter "AssociatedObjectType")) ∧
        ¬ (typeField filter "ParentType" ≠ "" ∧
          (cur.ParentID ≠ filterID filter "ParentID" ∨
            cur.ParentType ≠ typeField filter "ParentType"))) := by
  unfold keyTest
  simp only [decide_eq_true_eq]
  tauto


/-- C15: for every fetched transaction list and every filter with a non-empty
`AssociatedObjectType`, every record of the list that `ListByGroup` returns
is a record of the fetched list whose `AssociatedObjectID` and
`AssociatedObjectType` equal the filter's (the id being 0 when the filter has
no id field); and with a non-empty `ParentType` every record of the result is
a record of the fetched list with the filter's `ParentID` and `ParentType`. -/
theorem listByGroup_records_match_key (c : Client) (filter : Filter) (revers : Bool)
    (opt : Option ListOptions) (lst : List Transaction) (resp : Option Response)
    (r : Returned Slice)
    (hfetch : c.List opt = .fetched lst resp)
    (h : ListByGroup c filter revers opt = .ok r) :
    (typeField filter "AssociatedObjectType" ≠ "" →
      ∀ t ∈ Slice.toList r.val, t ∈ lst ∧
        t.AssociatedObjectID = filterID filter "AssociatedObjectID" ∧
        t.AssociatedObjectType = typeField filter "AssociatedObjectType") ∧
    (typeField filter "ParentType" ≠ "" →
      ∀ t ∈ Slice.toList r.val, t ∈ lst ∧
        t.ParentID = filterID filter "ParentID" ∧
        t.ParentType = typeField filter "ParentType") := by
  have hall : ∀ t ∈ Slice.toList r.val, t ∈ lst ∧
      (typeField filter "AssociatedObjectType" ≠ "" →
        t.AssociatedObjectID = filterID filter "AssociatedObjectID" ∧
        t.AssociatedObjectType = typeField filter "AssociatedObjectType") ∧
      (typeField filter "ParentType" ≠ "" →
        t.ParentID = filterID filter "ParentID" ∧
        t.ParentType = typeField filter "ParentType") := by
    intro t ht
    rcases listByGroup_fetched_cases c filter revers opt lst resp r hfetch h with
      ⟨hv, _⟩ | ⟨_, hv⟩
    · rw [hv] at ht
      simp [Slice.toList] at ht
    · rw [hv] at ht
      rcases mem_scan _ _ _ _ _ _ _ _ t ht with h0 | h0
      · simp [Slice.toList] at h0
      · exact h0
  constructor
  · intro ha t ht
    exact ⟨(hall t ht).1, (hall t ht).2.1 ha⟩
  · intro hp t ht
    exact ⟨(hall t ht).1, (hall t ht).2.2 hp⟩

/-- Witness of `listByGroup_records_match_key`: the chain of virtual machine 5
stored newest first with a record of another object in between. -/
theorem listByGroup_records_match_key_witness :
    typeField vmFilter "AssociatedObjectType" ≠ "" ∧
    ∀ t ∈ [vmRecord zeroTransaction 3 2, vmRecord zeroTransaction 1 0],
      t ∈ [vmRecord zeroTransaction 3 2, vmRecord zeroTransaction 2 1, zeroTransaction,
        vmRecord zeroTransaction 1 0] ∧
      t.AssociatedObjectID = filterID vmFilter "AssociatedObjectID" ∧
      t.AssociatedObjectType = typeField vmFilter "AssociatedObjectType" :=
  ⟨by decide,
   (listByGroup_records_match_key
    (clientOf [vmRecord zeroTransaction 3 2, vmRecord zeroTransaction 2 1, zeroTransaction,
      vmRecord zeroTransaction 1 0]) vmFilter false none _ none
    ⟨some [vmRecord zeroTransaction 3 2, vmRecord zeroTransaction 1 0], none, none, [none]⟩
    rfl (by rfl)).1 (by decide)⟩

/-- C16: for every fetched transaction list that contains a record passing
the grouping-key test with `DependentTransactionID = 0`, the first such record
(the chain root) is in the list that `ListByGroup` returns without error: it
is its last element in non-reverse mode and its first element in reverse
mode. -/
theorem listByGroup_root_included (c : Client) (filter : Filter) (revers : Bool)
    (opt : Option ListOptions) (pre : List Transaction) (root : Transaction)
    (post : List Transaction) (resp : Option Response) (r : Returned Slice)
    (hfetch : c.List opt = .fetched (pre ++ root :: post) resp)
    (h : ListByGroup c filter revers opt = .ok r)
    (herr : r.err = none)
    (hkey : keyTest filter root = true)
    (hdep : root.DependentTransactionID = 0)
    (hfirst : ∀ t ∈ pre, ¬ (keyTest filter t = true ∧ t.DependentTransactionID = 0)) :
    root ∈ Slice.toList r.val ∧
    (revers = false → (Slice.toList r.val).getLast? = some root) ∧
    (revers = true → (Slice.toList r.val).head? = some root) := by
  rcases listByGroup_fetched_cases c filter revers opt _ resp r hfetch h with
    ⟨_, he⟩ | ⟨_, hv⟩
  · exact absurd herr he
  · have hk := (keyTest_iff filter root).mp hkey
    obtain ⟨n1, g1, hs⟩ := scan_append_no_root (filterID filter "AssociatedObjectID")
      (typeField filter "AssociatedObjectType") (filterID filter "ParentID")
      (typeField filter "ParentType") revers pre (root :: post)
      (fun t ht hc => hfirst t ht ⟨(keyTest_iff filter t).mpr ⟨hc.1, hc.2.1⟩, hc.2.2⟩)
      none none
    rw [hs, scan_cons_root _ _ _ _ _ _ _ _ _ hk.1 hk.2 hdep] at hv
    rw [hv, toList_push]
    cases revers <;> simp

/-- Witness of `listByGroup_root_included`: the chain of virtual machine 5
stored newest first, in reverse mode. -/
theorem listByGroup_root_included_witness :
    ListByGroup (clientOf ([vmRecord zeroTransaction 3 2, vmRecord zeroTransaction 2 1] ++
        vmRecord zeroTransaction 1 0 :: [vmRecord zeroTransaction 4 0])) vmFilter true none
      = .ok ⟨some [vmRecord zeroTransaction 1 0, vmRecord zeroTransaction 2 1,
          vmRecord zeroTransaction 3 2], none, none, [none]⟩ ∧
    [vmRecord zeroTransaction 1 0, vmRecord zeroTransaction 2 1,
        vmRecord zeroTransaction 3 2].head? = some (vmRecord zeroTransaction 1 0) :=
  ⟨by rfl,
   (listByGroup_root_included
    (clientOf ([vmRecord zeroTransaction 3 2, vmRecord zeroTransaction 2 1] ++
        vmRecord zeroTransaction 1 0 :: [vmRecord zeroTransaction 4 0])) vmFilter true none
    [vmRecord zeroTransaction 3 2, vmRecord zeroTransaction 2 1] (vmRecord zeroTransaction 1 0)
    [vmRecord zeroTransaction 4 0] none
    ⟨some [vmRecord zeroTransaction 1 0, vmRecord zeroTransaction 2 1,
      vmRecord zeroTransaction 3 2], none, none, [none]⟩
    rfl (by rfl) rfl (by rfl) (by rfl) (by decide)).2.2 rfl⟩

/-- C17: the scan ends at the first chain root: for every list `pre`, every
record `root` that passes the grouping-key test with
`DependentTransactionID = 0` and every list `tail`, `ListByGroup` on the
fetched list `pre ++ [root] ++ tail` returns what it returns on the fetched
list `pre ++ [root]`, and every record of its result is a record of
`pre ++ [root]`. -/
theorem listByGroup_stops_at_root (c1 c2 : Client) (filter : Filter) (revers : Bool)
    (opt : Option ListOptions) (pre : List Transaction) (root : Transaction)
    (tail : List Transaction) (resp : Option Response)
    (hfetch1 : c1.List opt = .fetched (pre ++ [root] ++ tail) resp)
    (hfetch2 : c2.List opt = .fetched (pre ++ [root]) resp)
    (hkey : keyTest filter root = true)
    (hdep : root.DependentTransactionID = 0) :
    ListByGroup c1 filter revers opt = ListByGroup c2 filter revers opt ∧
    ∀ r, ListByGroup c1 filter revers opt = .ok r →
      ∀ t ∈ Slice.toList r.val, t ∈ pre ++ [root] := by
  have hk := (keyTest_iff filter root).mp hkey
  have heq : ListByGroup c1 filter revers opt = ListByGroup c2 filter revers opt := by
    unfold ListByGroup
    cases ha : idField filter "AssociatedObjectID" "associatedObjectID" with
    | error p => rfl
    | ok ra =>
      cases ra with
      | error e => rfl
      | ok aid =>
        cases hp : idField filter "ParentID" "parentID" with
        | error p => rfl
        | ok rp =>
          cases rp with
          | error e => rfl
          | ok pid =>
            simp only [hfetch1, hfetch2]
            rw [idField_ok_eq_filterID _ _ _ _ ha, idField_ok_eq_filterID _ _ _ _ hp,
              List.append_assoc, List.singleton_append,
              scan_stops_at_root _ _ _ _ _ _ _ _ hk.1 hk.2 hdep]
  refine ⟨heq, ?_⟩
  intro r hr t ht
  rw [heq] at hr
  rcases listByGroup_fetched_cases c2 filter revers opt _ resp r hfetch2 hr with
    ⟨hv, _⟩ | ⟨_, hv⟩
  · rw [hv] at ht
    simp [Slice.toList] at ht
  · rw [hv] at ht
    rcases mem_scan _ _ _ _ _ _ _ _ t ht with h0 | h0
    · simp [Slice.toList] at h0
    · exact h0.1

/-- Witness of `listByGroup_stops_at_root`: a root of virtual machine 5 with
one record of the chain before it and two after it. -/
theorem listByGroup_stops_at_root_witness :
    keyTest vmFilter (vmRecord zeroTransaction 1 0) = true ∧
    ListByGroup (clientOf ([vmRecord zeroTransaction 2 1] ++ [vmRecord zeroTransaction 1 0] ++
        [vmRecord zeroTransaction 4 3, vmRecord zeroTransaction 3 2])) vmFilter false none
      = ListByGroup (clientOf ([vmRecord zeroTransaction 2 1] ++ [vmRecord zeroTransaction 1 0]))
          vmFilter false none :=
  ⟨by rfl,
   (listByGroup_stops_at_root
    (clientOf ([vmRecord zeroTransaction 2 1] ++ [vmRecord zeroTransaction 1 0] ++
      [vmRecord zeroTransaction 4 3, vmRecord zeroTransaction 3 2]))
    (clientOf ([vmRecord zeroTransaction 2 1] ++ [vmRecord zeroTransaction 1 0]))
    vmFilter false none [vmRecord zeroTransaction 2 1] (vmRecord zeroTransaction 1 0)
    [vmRecord zeroTransaction 4 3, vmRecord zeroTransaction 3 2] none rfl rfl (by rfl) rfl).1⟩


/-! ## ListByGroup: the last index, double appends and the nil list -/

/-- C18 fails on the code: on the two-record list
`[(id 2, dep 1), (id 3, dep 2)]` of virtual machine 5, grouped by the
associated object `(5, "VM")`, the record with id 3 is not a root and stands
at the last index, where no record follows it, yet `ListByGroup` includes it,
in forward and in reverse mode: `next` still points at the record itself,
set one turn earlier, so the record is compared with itself. -/
theorem listByGroup_last_record_included :
    (vmRecord zeroTransaction 3 2).DependentTransactionID ≠ 0 ∧
    [vmRecord zeroTransaction 2 1, vmRecord zeroTransaction 3 2].getLast?
      = some (vmRecord zeroTransaction 3 2) ∧
    ListByGroup (clientOf [vmRecord zeroTransaction 2 1, vmRecord zeroTransaction 3 2])
        vmFilter false none
      = .ok ⟨some [vmRecord zeroTransaction 2 1, vmRecord zeroTransaction 3 2],
          none, none, [none]⟩ ∧
    ListByGroup (clientOf [vmRecord zeroTransaction 2 1, vmRecord zeroTransaction 3 2])
        vmFilter true none
      = .ok ⟨some [vmRecord zeroTransaction 3 2, vmRecord zeroTransaction 2 1],
          none, none, [none]⟩ := by
  refine ⟨by decide, by rfl, by rfl, by rfl⟩

/-- The adjacency tests as two conditional pushes. -/
theorem adjacent_eq (at_ pt : String) (revers : Bool) (cur next : Transaction) (g : Slice) :
    adjacent at_ pt revers cur next g =
      if pt ≠ "" ∧ cur.ParentID = next.ParentID ∧ cur.ParentType = next.ParentType ∧
          cur.ChainID = next.ChainID then
        push revers
          (if at_ ≠ "" ∧ cur.AssociatedObjectID = next.AssociatedObjectID ∧
              cur.AssociatedObjectType = next.AssociatedObjectType ∧
              cur.ChainID = next.ChainID then push revers g cur else g) cur
      else
        (if at_ ≠ "" ∧ cur.AssociatedObjectID = next.AssociatedObjectID ∧
            cur.AssociatedObjectType = next.AssociatedObjectType ∧
            cur.ChainID = next.ChainID then push revers g cur else g) := by
  unfold adjacent
  simp only []
  split_ifs <;> simp_all

/-- In forward mode the adjacency tests put copies of the current record
after the slice. -/
theorem adjacent_forward_extends (at_ pt : String) (cur next : Transaction) (g : Slice) :
    ∃ s, Slice.toList (adjacent at_ pt false cur next g) = Slice.toList g ++ s ∧
      ∀ t ∈ s, t = cur := by
  rw [adjacent_eq]
  by_cases hp : pt ≠ "" ∧ cur.ParentID = next.ParentID ∧ cur.ParentType = next.ParentType ∧
      cur.ChainID = next.ChainID
  · by_cases ha : at_ ≠ "" ∧ cur.AssociatedObjectID = next.AssociatedObjectID ∧
        cur.AssociatedObjectType = next.AssociatedObjectType ∧ cur.ChainID = next.ChainID
    · rw [if_pos hp, if_pos ha]
      exact ⟨[cur, cur], by simp [toList_push], by simp⟩
    · rw [if_pos hp, if_neg ha]
      exact ⟨[cur], by simp [toList_push], by simp⟩
  · by_cases ha : at_ ≠ "" ∧ cur.AssociatedObjectID = next.AssociatedObjectID ∧
        cur.AssociatedObjectType = next.AssociatedObjectType ∧ cur.ChainID = next.ChainID
    · rw [if_neg hp, if_pos ha]
      exact ⟨[cur], by simp [toList_push], by simp⟩
    · rw [if_neg hp, if_neg ha]
      exact ⟨[], by simp, by simp⟩

/-- In reverse mode the adjacency tests put copies of the current record
before the slice. -/
theorem adjacent_reverse_extends (at_ pt : String) (cur next : Transaction) (g : Slice) :
    ∃ s, Slice.toList (adjacent at_ pt true cur next g) = s ++ Slice.toList g ∧
      ∀ t ∈ s, t = cur := by
  rw [adjacent_eq]
  by_cases hp : pt ≠ "" ∧ cur.ParentID = next.ParentID ∧ cur.ParentType = next.ParentType ∧
      cur.ChainID = next.ChainID
  · by_cases ha : at_ ≠ "" ∧ cur.AssociatedObjectID = next.AssociatedObjectID ∧
        cur.AssociatedObjectType = next.AssociatedObjectType ∧ cur.ChainID = next.ChainID
    · rw [if_pos hp, if_pos ha]
      exact ⟨[cur, cur], by simp [toList_push], by simp⟩
    · rw [if_pos hp, if_neg ha]
      exact ⟨[cur], by simp [toList_push], by simp⟩
  · by_cases ha : at_ ≠ "" ∧ cur.AssociatedObjectID = next.AssociatedObjectID ∧
        cur.AssociatedObjectType = next.AssociatedObjectType ∧ cur.ChainID = next.ChainID
    · rw [if_neg hp, if_pos ha]
      exact ⟨[cur], by simp [toList_push], by simp⟩
    · rw [if_neg hp, if_neg ha]
      exact ⟨[], by simp, by simp⟩

/-- One turn of the forward scan on a record that is not a chain root passing
the key tests leaves a scan of the remaining records from a slice extended by
copies of that record. -/
theorem scan_forward_cons_no_root (aid : Int) (at_ : String) (pid : Int) (pt : String)
    (cur : Transaction) (rest : List Transaction) (next : Option Transaction) (g : Slice)
    (h : ¬ (¬ (at_ ≠ "" ∧ (cur.AssociatedObjectID ≠ aid ∨ cur.AssociatedObjectType ≠ at_)) ∧
      ¬ (pt ≠ "" ∧ (cur.ParentID ≠ pid ∨ cur.ParentType ≠ pt)) ∧
      cur.DependentTransactionID = 0)) :
    ∃ next1 g1 s, scan aid at_ pid pt false (cur :: rest) next g
        = scan aid at_ pid pt false rest next1 g1 ∧
      Slice.toList g1 = Slice.toList g ++ s ∧ ∀ t ∈ s, t = cur := by
  by_cases h1 : at_ ≠ "" ∧ (cur.AssociatedObjectID ≠ aid ∨ cur.AssociatedObjectType ≠ at_)
  · exact ⟨next, g, [], scan_cons_skip _ _ _ _ _ _ _ _ _ (Or.inl h1), by simp, by simp⟩
  · by_cases h2 : pt ≠ "" ∧ (cur.ParentID ≠ pid ∨ cur.ParentType ≠ pt)
    · exact ⟨next, g, [], scan_cons_skip _ _ _ _ _ _ _ _ _ (Or.inr h2), by simp, by simp⟩
    · have hdep : cur.DependentTransactionID ≠ 0 := fun hd => h ⟨h1, h2, hd⟩
      obtain ⟨s, hs⟩ : ∃ s, Slice.toList
          (match (match rest with
              | [] => next
              | n :: _ => some n) with
            | none => g
            | some n => adjacent at_ pt false cur n g) = Slice.toList g ++ s ∧
          ∀ t ∈ s, t = cur := by
        split
        · exact ⟨[], by simp, by simp⟩
        · exact adjacent_forward_extends _ _ _ _ _
      exact ⟨_, _, s, scan_cons_step _ _ _ _ _ _ _ _ _ h1 h2 hdep, hs.1, hs.2⟩

/-- One turn of the reverse scan, as `scan_forward_cons_no_root`. -/
theorem scan_reverse_cons_no_root (aid : Int) (at_ : String) (pid : Int) (pt : String)
    (cur : Transaction) (rest : List Transaction) (next : Option Transaction) (g : Slice)
    (h : ¬ (¬ (at_ ≠ "" ∧ (cur.AssociatedObjectID ≠ aid ∨ cur.AssociatedObjectType ≠ at_)) ∧
      ¬ (pt ≠ "" ∧ (cur.ParentID ≠ pid ∨ cur.ParentType ≠ pt)) ∧
      cur.DependentTransactionID = 0)) :
    ∃ next1 g1 s, scan aid at_ pid pt true (cur :: rest) next g
        = scan aid at_ pid pt true rest next1 g1 ∧
      Slice.toList g1 = s ++ Slice.toList g ∧ ∀ t ∈ s, t = cur := by
  by_cases h1 : at_ ≠ "" ∧ (cur.AssociatedObjectID ≠ aid ∨ cur.AssociatedObjectType ≠ at_)
  · exact ⟨next, g, [], scan_cons_skip _ _ _ _ _ _ _ _ _ (Or.inl h1), by simp, by simp⟩
  · by_cases h2 : pt ≠ "" ∧ (cur.ParentID ≠ pid ∨ cur.ParentType ≠ pt)
    · exact ⟨next, g, [], scan_cons_skip _ _ _ _ _ _ _ _ _ (Or.inr h2), by simp, by simp⟩
    · have hdep : cur.DependentTransactionID ≠ 0 := fun hd => h ⟨h1, h2, hd⟩
      obtain ⟨s, hs⟩ : ∃ s, Slice.toList
          (match (match rest with
              | [] => next
              | n :: _ => some n) with
            | none => g
            | some n => adjacent at_ pt true cur n g) = s ++ Slice.toList g ∧
          ∀ t ∈ s, t = cur := by
        split
        · exact ⟨[], by simp, by simp⟩
        · exact adjacent_reverse_extends _ _ _ _ _
      exact ⟨_, _, s, scan_cons_step _ _ _ _ _ _ _ _ _ h1 h2 hdep, hs.1, hs.2⟩


/-- Across a run of records none of which is a chain root passing the key
tests, the forward scan goes on from a slice extended by records of the run. -/
theorem scan_forward_append_no_root (aid : Int) (at_ : String) (pid : Int) (pt : String)
    (pre rest : List Transaction)
    (h : ∀ t ∈ pre,
      ¬ (¬ (at_ ≠ "" ∧ (t.AssociatedObjectID ≠ aid ∨ t.AssociatedObjectType ≠ at_)) ∧
        ¬ (pt ≠ "" ∧ (t.ParentID ≠ pid ∨ t.ParentType ≠ pt)) ∧
        t.DependentTransactionID = 0))
    (next : Option Transaction) (g : Slice) :
    ∃ next1 g1 s, scan aid at_ pid pt false (pre ++ rest) next g
        = scan aid at_ pid pt false rest next1 g1 ∧
      Slice.toList g1 = Slice.toList g ++ s ∧ ∀ t ∈ s, t ∈ pre := by
  induction pre generalizing next g with
  | nil => exact ⟨next, g, [], rfl, by simp, by simp⟩
  | cons cur pre ih =>
    obtain ⟨n1, g1, s1, h1, hg1, hs1⟩ :=
      scan_forward_cons_no_root aid at_ pid pt cur (pre ++ rest) next g (h cur (by simp))
    obtain ⟨n2, g2, s2, h2, hg2, hs2⟩ :=
      ih (fun t ht => h t (List.mem_cons_of_mem _ ht)) n1 g1
    refine ⟨n2, g2, s1 ++ s2, by rw [List.cons_append, h1, h2], by rw [hg2, hg1]; simp, ?_⟩
    intro t ht
    rcases List.mem_append.mp ht with ht1 | ht2
    · rw [hs1 t ht1]; simp
    · exact List.mem_cons_of_mem _ (hs2 t ht2)

/-- Across a run of records none of which is a chain root passing the key
tests, the reverse scan goes on from a slice extended by records of the run. -/
theorem scan_reverse_append_no_root (aid : Int) (at_ : String) (pid : Int) (pt : String)
    (pre rest : List Transaction)
    (h : ∀ t ∈ pre,
      ¬ (¬ (at_ ≠ "" ∧ (t.AssociatedObjectID ≠ aid ∨ t.AssociatedObjectType ≠ at_)) ∧
        ¬ (pt ≠ "" ∧ (t.ParentID ≠ pid ∨ t.ParentType ≠ pt)) ∧
        t.DependentTransactionID = 0))
    (next : Option Transaction) (g : Slice) :
    ∃ next1 g1 s, scan aid at_ pid pt true (pre ++ rest) next g
        = scan aid at_ pid pt true rest next1 g1 ∧
      Slice.toList g1 = s ++ Slice.toList g ∧ ∀ t ∈ s, t ∈ pre := by
  induction pre generalizing next g with
  | nil => exact ⟨next, g, [], rfl, by simp, by simp⟩
  | cons cur pre ih =>
    obtain ⟨n1, g1, s1, h1, hg1, hs1⟩ :=
      scan_reverse_cons_no_root aid at_ pid pt cur (pre ++ rest) next g (h cur (by simp))
    obtain ⟨n2, g2, s2, h2, hg2, hs2⟩ :=
      ih (fun t ht => h t (List.mem_cons_of_mem _ ht)) n1 g1
    refine ⟨n2, g2, s2 ++ s1, by rw [List.cons_append, h1, h2], by rw [hg2, hg1]; simp, ?_⟩
    intro t ht
    rcases List.mem_append.mp ht with ht2 | ht1
    · exact List.mem_cons_of_mem _ (hs2 t ht2)
    · rw [hs1 t ht1]; simp

/-- The forward scan puts records of the list after the slice. -/
theorem scan_forward_extends (aid : Int) (at_ : String) (pid : Int) (pt : String)
    (lst : List Transaction) (next : Option Transaction) (g : Slice) :
    ∃ s, Slice.toList (scan aid at_ pid pt false lst next g) = Slice.toList g ++ s ∧
      ∀ t ∈ s, t ∈ lst := by
  induction lst generalizing next g with
  | nil => exact ⟨[], by simp [scan], by simp⟩
  | cons cur rest ih =>
    by_cases hr : ¬ (at_ ≠ "" ∧ (cur.AssociatedObjectID ≠ aid ∨ cur.AssociatedObjectType ≠ at_)) ∧
        ¬ (pt ≠ "" ∧ (cur.ParentID ≠ pid ∨ cur.ParentType ≠ pt)) ∧
        cur.DependentTransactionID = 0
    · rw [scan_cons_root _ _ _ _ _ _ _ _ _ hr.1 hr.2.1 hr.2.2]
      exact ⟨[cur], by simp [toList_push], by simp⟩
    · obtain ⟨n1, g1, s1, h1, hg1, hs1⟩ :=
        scan_forward_cons_no_root aid at_ pid pt cur rest next g hr
      obtain ⟨s2, h2, hs2⟩ := ih n1 g1
      refine ⟨s1 ++ s2, by rw [h1, h2, hg1]; simp, ?_⟩
      intro t ht
      rcases List.mem_append.mp ht with ht1 | ht2
      · rw [hs1 t ht1]; simp
      · exact List.mem_cons_of_mem _ (hs2 t ht2)

/-- The reverse scan puts records of the list before the slice. -/
theorem scan_reverse_extends (aid : Int) (at_ : String) (pid : Int) (pt : String)
    (lst : List Transaction) (next : Option Transaction) (g : Slice) :
    ∃ s, Slice.toList (scan aid at_ pid pt true lst next g) = s ++ Slice.toList g ∧
      ∀ t ∈ s, t ∈ lst := by
  induction lst generalizing next g with
  | nil => exact ⟨[], by simp [scan], by simp⟩
  | cons cur rest ih =>
    by_cases hr : ¬ (at_ ≠ "" ∧ (cur.AssociatedObjectID ≠ aid ∨ cur.AssociatedObjectType ≠ at_)) ∧
        ¬ (pt ≠ "" ∧ (cur.ParentID ≠ pid ∨ cur.ParentType ≠ pt)) ∧
        cur.DependentTransactionID = 0
    · rw [scan_cons_root _ _ _ _ _ _ _ _ _ hr.1 hr.2.1 hr.2.2]
      exact ⟨[cur], by simp [toList_push], by simp⟩
    · obtain ⟨n1, g1, s1, h1, hg1, hs1⟩ :=
        scan_reverse_cons_no_root aid at_ pid pt cur rest next g hr
      obtain ⟨s2, h2, hs2⟩ := ih n1 g1
      refine ⟨s2 ++ s1, by rw [h1, h2, hg1]; simp, ?_⟩
      intro t ht
      rcases List.mem_append.mp ht with ht2 | ht1
      · exact List.mem_cons_of_mem _ (hs2 t ht2)
      · rw [hs1 t ht1]; simp

/-- With both keys active, a record that passes the key tests, is not a chain
root and shares both keys and the chain id with the record after it is pushed
twice, and the scan goes on with the record after it. -/
theorem scan_cons_double (aid : Int) (at_ : String) (pid : Int) (pt : String) (revers : Bool)
    (cur nxt : Transaction) (post : List Transaction) (next : Option Transaction) (g : Slice)
    (ha : at_ ≠ "") (hp : pt ≠ "")
    (h1 : ¬ (at_ ≠ "" ∧ (cur.AssociatedObjectID ≠ aid ∨ cur.AssociatedObjectType ≠ at_)))
    (h2 : ¬ (pt ≠ "" ∧ (cur.ParentID ≠ pid ∨ cur.ParentType ≠ pt)))
    (hdep : cur.DependentTransactionID ≠ 0)
    (hsa : cur.AssociatedObjectID = nxt.AssociatedObjectID ∧
      cur.AssociatedObjectType = nxt.AssociatedObjectType)
    (hsp : cur.ParentID = nxt.ParentID ∧ cur.ParentType = nxt.ParentType)
    (hsc : cur.ChainID = nxt.ChainID) :
    scan aid at_ pid pt revers (cur :: nxt :: post) next g
      = scan aid at_ pid pt revers (nxt :: post) (some nxt)
          (push revers (push revers g cur) cur) := by
  rw [scan_cons_step _ _ _ _ _ _ _ _ _ h1 h2 hdep]
  simp only []
  rw [adjacent_eq, if_pos ⟨hp, hsp.1, hsp.2, hsc⟩, if_pos ⟨ha, hsa.1, hsa.2, hsc⟩]


/-- C19, as stated, fails: with both keys active, on the list
`[(id 1, dep 0), (id 2, dep 1), (id 3, dep 2)]` of records that all have the
associated object `(5, "VM")`, the parent `(7, "User")` and the chain id 9, the
record with id 2 passes both key tests, is not a root and shares both keys and
the chain id with the record after it, yet it is not in the result at all, in
forward and in reverse mode: the scan ended at the root with id 1. -/
theorem listByGroup_double_append_after_root :
    typeField bothFilter "AssociatedObjectType" ≠ "" ∧
    typeField bothFilter "ParentType" ≠ "" ∧
    keyTest bothFilter (bothRecord 2 1) = true ∧
    (bothRecord 2 1).DependentTransactionID ≠ 0 ∧
    ListByGroup (clientOf [bothRecord 1 0, bothRecord 2 1, bothRecord 3 2]) bothFilter false none
      = .ok ⟨some [bothRecord 1 0], none, none, [none]⟩ ∧
    ListByGroup (clientOf [bothRecord 1 0, bothRecord 2 1, bothRecord 3 2]) bothFilter true none
      = .ok ⟨some [bothRecord 1 0], none, none, [none]⟩ ∧
    bothRecord 2 1 ∉ [bothRecord 1 0] := by
  refine ⟨by decide, by decide, by rfl, by decide, by rfl, by rfl, by decide⟩

/-- C19 (amended): when the filter activates both the associated-object key
and the parent key, a non-root record that the scan reaches (no record before
it in the list passes the key tests with `DependentTransactionID = 0`), that
passes both key tests and whose next record shares its associated-object id
and type, its parent id and type and its chain id, is in the result of
`ListByGroup` twice, as two adjacent copies, in forward and in reverse mode:
in forward mode the copies come after records that stand before it in the list
and before records that stand after it, and conversely in reverse mode. -/
theorem listByGroup_double_append (c : Client) (filter : Filter) (revers : Bool)
    (opt : Option ListOptions) (pre : List Transaction) (cur nxt : Transaction)
    (post : List Transaction) (resp : Option Response) (r : Returned Slice)
    (hfetch : c.List opt = .fetched (pre ++ cur :: nxt :: post) resp)
    (h : ListByGroup c filter revers opt = .ok r)
    (herr : r.err = none)
    (ha : typeField filter "AssociatedObjectType" ≠ "")
    (hp : typeField filter "ParentType" ≠ "")
    (hreach : ∀ t ∈ pre, ¬ (keyTest filter t = true ∧ t.DependentTransactionID = 0))
    (hkey : keyTest filter cur = true)
    (hdep : cur.DependentTransactionID ≠ 0)
    (hsa : cur.AssociatedObjectID = nxt.AssociatedObjectID ∧
      cur.AssociatedObjectType = nxt.AssociatedObjectType)
    (hsp : cur.ParentID = nxt.ParentID ∧ cur.ParentType = nxt.ParentType)
    (hsc : cur.ChainID = nxt.ChainID) :
    ∃ front back, Slice.toList r.val = front ++ cur :: cur :: back ∧
      (revers = false → (∀ t ∈ front, t ∈ pre) ∧ ∀ t ∈ back, t ∈ nxt :: post) ∧
      (revers = true → (∀ t ∈ front, t ∈ nxt :: post) ∧ ∀ t ∈ back, t ∈ pre) := by
  rcases listByGroup_fetched_cases c filter revers opt _ resp r hfetch h with
    ⟨_, he⟩ | ⟨_, hv⟩
  · exact absurd herr he
  · have hk := (keyTest_iff filter cur).mp hkey
    have hpre : ∀ t ∈ pre,
        ¬ (¬ (typeField filter "AssociatedObjectType" ≠ "" ∧
              (t.AssociatedObjectID ≠ filterID filter "AssociatedObjectID" ∨
                t.AssociatedObjectType ≠ typeField filter "AssociatedObjectType")) ∧
          ¬ (typeField filter "ParentType" ≠ "" ∧
              (t.ParentID ≠ filterID filter "ParentID" ∨
                t.ParentType ≠ typeField filter "ParentType")) ∧
          t.DependentTransactionID = 0) :=
      fun t ht hc => hreach t ht ⟨(keyTest_iff filter t).mpr ⟨hc.1, hc.2.1⟩, hc.2.2⟩
    cases revers with
    | false =>
      obtain ⟨n1, g1, s1, h1, hg1, hs1⟩ := scan_forward_append_no_root _ _ _ _ pre
        (cur :: nxt :: post) hpre none none
      obtain ⟨s2, h2, hs2⟩ := scan_forward_extends (filterID filter "AssociatedObjectID")
        (typeField filter "AssociatedObjectType") (filterID filter "ParentID")
        (typeField filter "ParentType") (nxt :: post) (some nxt)
        (push false (push false g1 cur) cur)
      rw [h1, scan_cons_double _ _ _ _ _ _ _ _ _ _ ha hp hk.1 hk.2 hdep hsa hsp hsc] at hv
      refine ⟨s1, s2, ?_, ?_, ?_⟩
      · rw [hv, h2, toList_push, toList_push, hg1]
        simp [Slice.toList]
      · intro _
        exact ⟨hs1, hs2⟩
      · intro hc
        cases hc
    | true =>
      obtain ⟨n1, g1, s1, h1, hg1, hs1⟩ := scan_reverse_append_no_root _ _ _ _ pre
        (cur :: nxt :: post) hpre none none
      obtain ⟨s2, h2, hs2⟩ := scan_reverse_extends (filterID filter "AssociatedObjectID")
        (typeField filter "AssociatedObjectType") (filterID filter "ParentID")
        (typeField filter "ParentType") (nxt :: post) (some nxt)
        (push true (push true g1 cur) cur)
      rw [h1, scan_cons_double _ _ _ _ _ _ _ _ _ _ ha hp hk.1 hk.2 hdep hsa hsp hsc] at hv
      refine ⟨s2, s1, ?_, ?_, ?_⟩
      · rw [hv, h2, toList_push, toList_push, hg1]
        simp [Slice.toList]
      · intro hc
        cases hc
      · intro _
        exact ⟨hs2, hs1⟩

/-- Witness of `listByGroup_double_append`: the chain stored newest first, so
that the records with ids 3 and 2 are reached before the root with id 1. -/
theorem listByGroup_double_append_witness :
    ListByGroup (clientOf ([bothRecord 3 2] ++ bothRecord 2 1 :: bothRecord 1 0 :: []))
        bothFilter false none
      = .ok ⟨some [bothRecord 3 2, bothRecord 3 2, bothRecord 2 1, bothRecord 2 1,
          bothRecord 1 0], none, none, [none]⟩ ∧
    ∃ front back,
      [bothRecord 3 2, bothRecord 3 2, bothRecord 2 1, bothRecord 2 1, bothRecord 1 0]
        = front ++ bothRecord 2 1 :: bothRecord 2 1 :: back ∧
      (false = false →
        (∀ t ∈ front, t ∈ [bothRecord 3 2]) ∧ ∀ t ∈ back, t ∈ bothRecord 1 0 :: []) ∧
      (false = true →
        (∀ t ∈ front, t ∈ bothRecord 1 0 :: []) ∧ ∀ t ∈ back, t ∈ [bothRecord 3 2]) :=
  ⟨by rfl,
   listByGroup_double_append
    (clientOf ([bothRecord 3 2] ++ bothRecord 2 1 :: bothRecord 1 0 :: [])) bothFilter false
    none [bothRecord 3 2] (bothRecord 2 1) (bothRecord 1 0) [] none
    ⟨some [bothRecord 3 2, bothRecord 3 2, bothRecord 2 1, bothRecord 2 1, bothRecord 1 0],
      none, none, [none]⟩
    rfl (by rfl) rfl (by decide) (by decide) (by decide) (by rfl) (by decide)
    ⟨by rfl, by rfl⟩ ⟨by rfl, by rfl⟩ (by rfl)⟩

/-- C20: the list that `ListByGroup` returns is either nil or non-empty, never
an allocated slice without elements, whatever the client, the filter, the mode
and the request; so the access `lst[0]` in `lastTransaction`, guarded only by
`lst == nil || err != nil`, is never out of bounds. -/
theorem listByGroup_nil_or_nonempty (searchTransactions : Int) (c : Client)
    (filter : Filter) (revers : Bool) (opt : Option ListOptions) :
    (∀ r, ListByGroup c filter revers opt = .ok r →
      r.val = none ∨ Slice.toList r.val ≠ []) ∧
    (∀ r, ListByGroup c filter revers opt = .ok r → r.val ≠ some []) ∧
    lastTransaction searchTransactions c filter ≠ .error .indexOutOfRange := by
  have hne : ∀ (rv : Bool) (o : Option ListOptions) (r : Returned Slice),
      ListByGroup c filter rv o = .ok r → r.val = none ∨ Slice.toList r.val ≠ [] := by
    intro rv o r hr
    have h0 := listByGroup_val_ne_some_nil c filter rv o r hr
    cases hv : r.val with
    | none => exact Or.inl rfl
    | some l =>
      right
      intro hl
      simp only [Slice.toList] at hl
      rw [hv, hl] at h0
      exact h0 rfl
  refine ⟨hne revers opt, listByGroup_val_ne_some_nil c filter revers opt, ?_⟩
  unfold lastTransaction
  simp only []
  cases hr : ListByGroup c filter false (some ⟨searchTransactions⟩) with
  | error p =>
    intro hc
    have hp : p = .indexOutOfRange := Except.error.inj hc
    subst hp
    unfold ListByGroup at hr
    split at hr
    · rename_i q hq
      unfold idField at hq
      split at hq
      · cases hq
      · split_ifs at hq
      · cases hr; cases hq
    · cases hr
    · split at hr
      · rename_i q hq
        unfold idField at hq
        split at hq
        · cases hq
        · split_ifs at hq
        · cases hr; cases hq
      · cases hr
      · simp only [] at hr
        split at hr <;> cases hr
  | ok r =>
    simp only []
    split_ifs with hcond
    · intro hc; cases hc
    · rcases hne false _ r hr with hv | hv
      · exact absurd (Or.inl hv) hcond
      · cases hl : Slice.toList r.val with
        | nil => exact absurd hl hv
        | cons t tl =>
          simp only [List.getElem?_cons_zero]
          intro hc
          cases hc


/-! ## ListByGroup: the fields of the filter that it reads -/

/-- The check of an id field depends on the filter through that field only. -/
theorem idField_congr (f1 f2 : Filter) (field arg : String)
    (h : FieldByName f1 field = FieldByName f2 field) :
    idField f1 field arg = idField f2 field arg := by
  unfold idField
  rw [h]

/-- The type read from a filter depends on the filter through that field
only. -/
theorem typeField_congr (f1 f2 : Filter) (field : String)
    (h : FieldByName f1 field = FieldByName f2 field) :
    typeField f1 field = typeField f2 field := by
  unfold typeField
  rw [h]

/-- Agreement on the four key fields, field by field. -/
theorem sameKeyFields_iff (f1 f2 : Filter) :
    sameKeyFields f1 f2 = true ↔
      FieldByName f1 "AssociatedObjectID" = FieldByName f2 "AssociatedObjectID" ∧
      FieldByName f1 "AssociatedObjectType" = FieldByName f2 "AssociatedObjectType" ∧
      FieldByName f1 "ParentID" = FieldByName f2 "ParentID" ∧
      FieldByName f1 "ParentType" = FieldByName f2 "ParentType" := by
  unfold sameKeyFields
  simp only [Bool.and_eq_true, decide_eq_true_eq]
  tauto

/-- An entry with the key `action` at the head of a request is not seen by a
lookup of another key. -/
theorem index_action_cons (value : Value) (rest : ActionRequest) (key : String)
    (h : key ≠ "action") :
    ActionRequest.index (("action", value) :: rest) key = ActionRequest.index rest key := by
  rw [ActionRequest.index, if_neg (fun hc => h hc.symm)]

/-- An entry with the key `action` at the head of a request is what a lookup
of `action` reads. -/
theorem index_action_head (value : Value) (rest : ActionRequest) :
    ActionRequest.index (("action", value) :: rest) "action" = some value := by
  rw [ActionRequest.index, if_pos rfl]

/-- The path of an action does not depend on the `action` entry of the
request. -/
theorem virtualMachineActionPath_action (virtualMachineBasePath apiFormat : String) (id : Int)
    (v1 v2 : Value) (rest : ActionRequest) :
    virtualMachineActionPath virtualMachineBasePath apiFormat id (("action", v1) :: rest)
      = virtualMachineActionPath virtualMachineBasePath apiFormat id (("action", v2) :: rest) := by
  unfold virtualMachineActionPath
  simp only [index_action_cons _ _ "type" (by decide), index_action_cons _ _ "path" (by decide),
    index_action_cons _ _ "ip_address_id" (by decide)]

/-- C21: `ListByGroup` reads only the fields `AssociatedObjectID`,
`AssociatedObjectType`, `ParentID` and `ParentType` of its filter: for every
client (every fetched list), mode and request, two filters that agree on the
presence and on the value of these four fields get the same result, from
`ListByGroup` and from `lastTransaction`; in particular the `Action` field of
the filter that `doAction` builds has no effect on what `lastTransaction`
returns, and two requests that differ only in the text of their `action` entry
get the same result from `doAction`. -/
theorem listByGroup_reads_key_fields (searchTransactions : Int) (c : Client) (revers : Bool)
    (opt : Option ListOptions) :
    (∀ f1 f2 : Filter, sameKeyFields f1 f2 = true →
      ListByGroup c f1 revers opt = ListByGroup c f2 revers opt ∧
      lastTransaction searchTransactions c f1 = lastTransaction searchTransactions c f2) ∧
    (∀ (action1 action2 : String) (id : Int),
      lastTransaction searchTransactions c (doActionFilter action1 id)
        = lastTransaction searchTransactions c (doActionFilter action2 id)) ∧
    (∀ (virtualMachineBasePath apiFormat : String) (transport : Transport) (id : Int)
        (action1 action2 : String) (rest : ActionRequest),
      doAction searchTransactions virtualMachineBasePath apiFormat transport c id
          (some (("action", .str action1) :: rest))
        = doAction searchTransactions virtualMachineBasePath apiFormat transport c id
          (some (("action", .str action2) :: rest))) := by
  have hgroup : ∀ (f1 f2 : Filter) (rv : Bool) (o : Option ListOptions),
      sameKeyFields f1 f2 = true → ListByGroup c f1 rv o = ListByGroup c f2 rv o := by
    intro f1 f2 rv o h
    obtain ⟨h1, h2, h3, h4⟩ := (sameKeyFields_iff f1 f2).mp h
    unfold ListByGroup
    rw [idField_congr f1 f2 _ _ h1, idField_congr f1 f2 _ _ h3, typeField_congr f1 f2 _ h2,
      typeField_congr f1 f2 _ h4]
  have hlast : ∀ f1 f2 : Filter, sameKeyFields f1 f2 = true →
      lastTransaction searchTransactions c f1 = lastTransaction searchTransactions c f2 := by
    intro f1 f2 h
    simp only [lastTransaction]
    rw [hgroup f1 f2 false _ h]
  have haction : ∀ (action1 action2 : String) (id : Int),
      lastTransaction searchTransactions c (doActionFilter action1 id)
        = lastTransaction searchTransactions c (doActionFilter action2 id) := by
    intro a1 a2 id
    apply hlast
    rw [sameKeyFields_iff]
    simp [doActionFilter, FieldByName]
  refine ⟨fun f1 f2 h => ⟨hgroup f1 f2 revers opt h, hlast f1 f2 h⟩, haction, ?_⟩
  intro base fmt transport id a1 a2 rest
  unfold doAction
  simp only [virtualMachineActionPath_action base fmt id (.str a1) (.str a2) rest,
    index_action_cons _ _ "method" (by decide), index_action_head, haction a1 a2 id]

/-- Witness of `listByGroup_reads_key_fields`: the filters that `doAction`
builds for virtual machine 5 with two different actions, on a chain whose
newest record belongs to neither action. -/
theorem listByGroup_reads_key_fields_witness :
    sameKeyFields (doActionFilter "stop_virtual_machine" 5)
      (doActionFilter "reboot_virtual_machine" 5) = true ∧
    ListByGroup (clientOf [actionRecord "startup_virtual_machine" 5 3 2,
        actionRecord "stop_virtual_machine" 5 2 1, actionRecord "build" 5 1 0])
        (doActionFilter "stop_virtual_machine" 5) false none
      = ListByGroup (clientOf [actionRecord "startup_virtual_machine" 5 3 2,
        actionRecord "stop_virtual_machine" 5 2 1, actionRecord "build" 5 1 0])
        (doActionFilter "reboot_virtual_machine" 5) false none ∧
    lastTransaction 10 (clientOf [actionRecord "startup_virtual_machine" 5 3 2,
        actionRecord "stop_virtual_machine" 5 2 1, actionRecord "build" 5 1 0])
        (doActionFilter "stop_virtual_machine" 5)
      = .ok ⟨some (actionRecord "startup_virtual_machine" 5 3 2), none, none, [some ⟨10⟩]⟩ :=
  ⟨by rfl,
   ((listByGroup_reads_key_fields 10 (clientOf [actionRecord "startup_virtual_machine" 5 3 2,
        actionRecord "stop_virtual_machine" 5 2 1, actionRecord "build" 5 1 0]) false none).1
      (doActionFilter "stop_virtual_machine" 5) (doActionFilter "reboot_virtual_machine" 5)
      (by rfl)).1,
   by rfl⟩

/-! ## The status predicates -/

/-- C22: the status predicates partition the five statuses: `Incomplete` is
true exactly for the statuses running and pending, `Finished` is true exactly
for the statuses complete, failed and cancelled; so for a transaction whose
status is one of the five exactly one of `Incomplete` and `Finished` is true,
and for every other status both are false. -/
theorem status_predicates_partition (trx : Transaction) :
    (trx.Incomplete = true ↔
      trx.Status = TransactionRunning ∨ trx.Status = TransactionPending) ∧
    (trx.Finished = true ↔
      trx.Status = TransactionComplete ∨ trx.Status = TransactionFailed ∨
        trx.Status = TransactionCancelled) ∧
    (trx.Status ∈ [TransactionRunning, TransactionPending, TransactionComplete,
        TransactionCancelled, TransactionFailed] →
      (trx.Incomplete = true ∧ trx.Finished = false) ∨
        (trx.Incomplete = false ∧ trx.Finished = true)) ∧
    (trx.Status ∉ [TransactionRunning, TransactionPending, TransactionComplete,
        TransactionCancelled, TransactionFailed] →
      trx.Incomplete = false ∧ trx.Finished = false) := by
  have hI : trx.Incomplete = true ↔
      trx.Status = TransactionRunning ∨ trx.Status = TransactionPending := by
    simp [Transaction.Incomplete, Transaction.Running, Transaction.Pending]
  have hF : trx.Finished = true ↔
      trx.Status = TransactionComplete ∨ trx.Status = TransactionFailed ∨
        trx.Status = TransactionCancelled := by
    simp [Transaction.Finished, Transaction.Complete, Transaction.Unlucky, Transaction.Failed,
      Transaction.Cancelled]
  have hIf : trx.Incomplete = false ↔
      ¬ (trx.Status = TransactionRunning ∨ trx.Status = TransactionPending) := by
    rw [← hI]; simp
  have hFf : trx.Finished = false ↔
      ¬ (trx.Status = TransactionComplete ∨ trx.Status = TransactionFailed ∨
        trx.Status = TransactionCancelled) := by
    rw [← hF]; simp
  refine ⟨hI, hF, ?_, ?_⟩
  · intro hmem
    simp only [List.mem_cons, List.mem_singleton, List.not_mem_nil, or_false] at hmem
    rw [hI, hF, hIf, hFf]
    rcases hmem with h | h | h | h | h
    · left
      refine ⟨Or.inl h, ?_⟩
      rw [h]
      decide
    · left
      refine ⟨Or.inr h, ?_⟩
      rw [h]
      decide
    · right
      refine ⟨?_, Or.inl h⟩
      rw [h]
      decide
    · right
      refine ⟨?_, Or.inr (Or.inr h)⟩
      rw [h]
      decide
    · right
      refine ⟨?_, Or.inr (Or.inl h)⟩
      rw [h]
      decide
  · intro hmem
    simp only [List.mem_cons, List.mem_singleton, List.not_mem_nil, or_false, not_or] at hmem
    rw [hIf, hFf]
    tauto


end OnApp
